import Mathlib

/-!
# Verification of the supercup rowing-competition analysis pipeline

Shallow embedding of `src/crew_tracking.py` and `src/visualization.py`:
Python strings are `String` (operations modeled over their `List Char`
code points, matching Python's code-point semantics), Python dicts are
insertion-ordered association lists, `None`/`NaN` values are `Option.none`.
All definitions are executable and kernel-reducible.
-/

set_option maxRecDepth 8000

/-! ## Python string primitives -/

/-- Python `p in s` (substring containment). -/
def substrB (p s : String) : Bool := decide (p.data <:+: s.data)

/-- Python `s.startswith(p)`. -/
def startsWithB (p s : String) : Bool := decide (p.data <+: s.data)

/-- Python `s.endswith(p)`. -/
def endsWithB (p s : String) : Bool := decide (p.data <:+ s.data)

/-- Python `s.strip()` (drops leading/trailing whitespace). -/
def pyStrip (s : String) : String :=
  String.mk (((s.data.dropWhile Char.isWhitespace).reverse.dropWhile Char.isWhitespace).reverse)

/-- Python `s.lower()` (per-code-point case mapping as used on the
ASCII race names and labels of this dataset). -/
def lowerStr (s : String) : String := String.mk (s.data.map Char.toLower)

/-- Python `s.upper()`. -/
def upperStr (s : String) : String := String.mk (s.data.map Char.toUpper)

/-- Python `s.replace(' ', '_')` (single-character pattern, so a per-character map). -/
def replaceSpace (s : String) : String :=
  String.mk (s.data.map (fun c => if c = ' ' then '_' else c))

/-- Python string `<` (lexicographic on code points). -/
def lexLt : List Char → List Char → Bool
  | [], [] => false
  | [], _ :: _ => true
  | _ :: _, [] => false
  | a :: as, b :: bs =>
    if a.toNat < b.toNat then true else if b.toNat < a.toNat then false else lexLt as bs

def strLtB (a b : String) : Bool := lexLt a.data b.data

/-- Python `int(tok)` on an all-digit token: `none` when the token does not
parse (which `int()` reports by raising, always caught in the source). -/
def digitsVal (l : List Char) : Option Nat :=
  if l ≠ [] ∧ l.all Char.isDigit then
    some (l.foldl (fun a c => a * 10 + (c.toNat - 48)) 0)
  else none

/-- Python `int(tok)` allowing a leading minus sign. -/
def pyInt : List Char → Option Int
  | '-' :: rest => (digitsVal rest).map (fun n => -(n : Int))
  | l => (digitsVal l).map (fun n => (n : Int))

/-! ## Python dicts as insertion-ordered association lists -/

def findA {α : Type} : List (String × α) → String → Option α
  | [], _ => none
  | (k, v) :: rest, key => if k = key then some v else findA rest key

/-- Python `d[key] = v`: overwrite in place, or append a new key at the end. -/
def setA {α : Type} : List (String × α) → String → α → List (String × α)
  | [], key, v => [(key, v)]
  | (k, w) :: rest, key, v =>
    if k = key then (k, v) :: rest else (k, w) :: setA rest key v

/-- Python `defaultdict(int)`'s `d[key] += w`. -/
def incr : List (String × Nat) → String → Nat → List (String × Nat)
  | [], key, w => [(key, w)]
  | (k, c) :: rest, key, w =>
    if k = key then (k, c + w) :: rest else (k, c) :: incr rest key w

def countOf (m : List (String × Nat)) (k : String) : Nat := (findA m k).getD 0

def keysOf {α : Type} (m : List (String × α)) : List String := m.map Prod.fst

def memKey {α : Type} (m : List (String × α)) (k : String) : Bool := (findA m k).isSome

/-- Python set modeled as a duplicate-free list in insertion order
(every consumer in the source either sorts it or tests membership). -/
def addDedup (l : List String) (x : String) : List String := if x ∈ l then l else l ++ [x]

/-! ## Python `sorted` (stable) -/

/-- Stable insertion for `sortByKey`: the inserted element goes before
later elements with an equal key. -/
def insKey {α : Type} (key : α → Int) (x : α) : List α → List α
  | [] => [x]
  | y :: ys => if key y < key x then y :: insKey key x ys else x :: y :: ys

/-- Python `sorted(l, key=key)`: stable, ascending. -/
def sortByKey {α : Type} (key : α → Int) : List α → List α
  | [] => []
  | x :: xs => insKey key x (sortByKey key xs)

def insStr (x : String) : List String → List String
  | [] => [x]
  | y :: ys => if strLtB y x then y :: insStr x ys else x :: y :: ys

/-- Python `sorted` on a list of strings. -/
def sortStr : List String → List String
  | [] => []
  | x :: xs => insStr x (sortStr xs)

/-! ## `src/crew_tracking.py`: `extract_veld` -/

/-- The pattern cascade of `extract_veld` (src/crew_tracking.py, lines 25-59),
applied to the already-stripped string `veld_str`. -/
def classifyVeld (veld_str : String) : String :=
  if substrB "LVG-B" veld_str then "LVG-B"
    else if substrB "VG-B" veld_str then "VG-B"
    else if substrB "LVE" veld_str then "LVE"
    else if substrB "LVG" veld_str then "LVG"
    else if substrB "LVB" veld_str then "LVB"
    else if substrB "VE" veld_str then "VE"
    else if substrB "VG" veld_str then "VG"
    else if substrB "VB" veld_str then "VB"
    else if substrB "MVG-B" veld_str then "MVG-B"
    else if substrB "MG-B" veld_str then "MG-B"
    else if substrB "MVE" veld_str then "MVE"
    else if substrB "MVG" veld_str then "MVG"
    else if substrB "MVB" veld_str then "MVB"
    else if substrB "ME" veld_str then "ME"
    else if substrB "MG" veld_str then "MG"
    else if substrB "MB" veld_str then "MB"
    else if veld_str ∉ (["", "nan", "None"] : List String) then veld_str else "Other"

/-- `extract_veld` (src/crew_tracking.py, lines 10-59). The argument is
`none` when `pd.isna(veld_value)` holds (missing value / `None` / `NaN`),
otherwise the raw string, which is stripped and classified. -/
def extract_veld : Option String → String
  | none => "Unknown"
  | some v => classifyVeld (pyStrip v)

/-- The classifier's pattern cascade, in source order; each pattern is its own tag. -/
def veldPatterns : List String :=
  ["LVG-B", "VG-B", "LVE", "LVG", "LVB", "VE", "VG", "VB",
   "MVG-B", "MG-B", "MVE", "MVG", "MVB", "ME", "MG", "MB"]

lemma neTrue {b : Bool} (h : b = false) : ¬ b = true := by
  intro hh; rw [h] at hh; exact Bool.noConfusion hh

lemma peelPos {t p d : String} {ps : List String} (h : substrB p t = true) :
    (List.find? (fun q => substrB q t) (p :: ps)).getD d = p := by
  rw [@List.find?_cons_of_pos String (fun q => substrB q t) p ps h]; rfl

lemma peelNeg {t p d : String} {ps : List String} (h : substrB p t = false) :
    (List.find? (fun q => substrB q t) (p :: ps)).getD d =
      (List.find? (fun q => substrB q t) ps).getD d := by
  rw [@List.find?_cons_of_neg String (fun q => substrB q t) p ps (neTrue h)]

/-- The if/elif cascade of `classifyVeld` agrees with first-match search
over `veldPatterns`. -/
lemma classifyVeld_eq_find (t : String) :
    classifyVeld t =
      (veldPatterns.find? (fun p => substrB p t)).getD
        (if t ∉ (["", "nan", "None"] : List String) then t else "Other") := by
  unfold classifyVeld veldPatterns
  cases h1 : substrB "LVG-B" t
  swap
  · rw [if_pos rfl, peelPos h1]
  rw [if_neg Bool.false_ne_true, peelNeg h1]
  cases h2 : substrB "VG-B" t
  swap
  · rw [if_pos rfl, peelPos h2]
  rw [if_neg Bool.false_ne_true, peelNeg h2]
  cases h3 : substrB "LVE" t
  swap
  · rw [if_pos rfl, peelPos h3]
  rw [if_neg Bool.false_ne_true, peelNeg h3]
  cases h4 : substrB "LVG" t
  swap
  · rw [if_pos rfl, peelPos h4]
  rw [if_neg Bool.false_ne_true, peelNeg h4]
  cases h5 : substrB "LVB" t
  swap
  · rw [if_pos rfl, peelPos h5]
  rw [if_neg Bool.false_ne_true, peelNeg h5]
  cases h6 : substrB "VE" t
  swap
  · rw [if_pos rfl, peelPos h6]
  rw [if_neg Bool.false_ne_true, peelNeg h6]
  cases h7 : substrB "VG" t
  swap
  · rw [if_pos rfl, peelPos h7]
  rw [if_neg Bool.false_ne_true, peelNeg h7]
  cases h8 : substrB "VB" t
  swap
  · rw [if_pos rfl, peelPos h8]
  rw [if_neg Bool.false_ne_true, peelNeg h8]
  cases h9 : substrB "MVG-B" t
  swap
  · rw [if_pos rfl, peelPos h9]
  rw [if_neg Bool.false_ne_true, peelNeg h9]
  cases h10 : substrB "MG-B" t
  swap
  · rw [if_pos rfl, peelPos h10]
  rw [if_neg Bool.false_ne_true, peelNeg h10]
  cases h11 : substrB "MVE" t
  swap
  · rw [if_pos rfl, peelPos h11]
  rw [if_neg Bool.false_ne_true, peelNeg h11]
  cases h12 : substrB "MVG" t
  swap
  · rw [if_pos rfl, peelPos h12]
  rw [if_neg Bool.false_ne_true, peelNeg h12]
  cases h13 : substrB "MVB" t
  swap
  · rw [if_pos rfl, peelPos h13]
  rw [if_neg Bool.false_ne_true, peelNeg h13]
  cases h14 : substrB "ME" t
  swap
  · rw [if_pos rfl, peelPos h14]
  rw [if_neg Bool.false_ne_true, peelNeg h14]
  cases h15 : substrB "MG" t
  swap
  · rw [if_pos rfl, peelPos h15]
  rw [if_neg Bool.false_ne_true, peelNeg h15]
  cases h16 : substrB "MB" t
  swap
  · rw [if_pos rfl, peelPos h16]
  rw [if_neg Bool.false_ne_true, peelNeg h16]
  rw [List.find?_nil]
  rfl

lemma substrB_trans_VGB {t : String} (h : substrB "MVG-B" t = true) :
    substrB "VG-B" t = true := by
  have h1 : ("VG-B".data <:+: "MVG-B".data) := by decide
  have h2 : ("MVG-B".data <:+: t.data) := of_decide_eq_true h
  exact decide_eq_true (h1.trans h2)

/-- C6: `extract_veld` is pure and total; missing/empty input yields the
sentinel `"Unknown"`; otherwise the input is trimmed and the tag of the
first matching pattern is returned; with no match the trimmed raw string
is returned, except that the empty-equivalent tokens `""`, `"nan"`,
`"None"` yield the sentinel `"Other"`. -/
theorem C6_classifier_sentinels :
    extract_veld none = "Unknown" ∧
    ∀ s : String,
      extract_veld (some s) =
        (veldPatterns.find? (fun p => substrB p (pyStrip s))).getD
          (if pyStrip s ∉ (["", "nan", "None"] : List String) then pyStrip s else "Other") :=
  ⟨rfl, fun s => classifyVeld_eq_find (pyStrip s)⟩

/-- C2: the claim that compound patterns win over the base patterns they
contain is false in the code: `'VG-B'` and `'VE'` are tested before
`'MVG-B'` and `'MVE'`, so `extract_veld` maps `"MVG-B"` to `"VG-B"` and
`"MVE"` to `"VE"`; in fact no input at all can ever produce the tag
`"MVG-B"` (that branch of the cascade is unreachable), contradicting the
source's own comment "order matters, check more specific patterns first". -/
theorem C2_pattern_priority_code_bug :
    extract_veld (some "MVG-B") = "VG-B" ∧ extract_veld (some "MVE") = "VE" ∧
    ∀ v : Option String, extract_veld v ≠ "MVG-B" := by
  have key : ∀ t : String, classifyVeld t ≠ "MVG-B" := by
    intro t heq
    rw [classifyVeld_eq_find t] at heq
    cases hf : List.find? (fun p => substrB p t) veldPatterns with
    | none =>
      rw [hf, Option.getD_none] at heq
      by_cases hm : t ∈ (["", "nan", "None"] : List String)
      · rw [if_neg (by simp [hm])] at heq
        exact absurd heq (by decide)
      · rw [if_pos hm] at heq
        subst heq
        have hall := List.find?_eq_none.mp hf "VG-B" (by decide)
        exact hall (by decide)
    | some p =>
      rw [hf, Option.getD_some] at heq
      subst heq
      rw [veldPatterns] at hf
      cases h1 : substrB "LVG-B" t with
      | true =>
        rw [@List.find?_cons_of_pos String (fun p => substrB p t) _ _ h1] at hf
        exact absurd (Option.some.inj hf) (by decide)
      | false =>
        rw [@List.find?_cons_of_neg String (fun p => substrB p t) _ _ (neTrue h1)] at hf
        cases h2 : substrB "VG-B" t with
        | true =>
          rw [@List.find?_cons_of_pos String (fun p => substrB p t) _ _ h2] at hf
          exact absurd (Option.some.inj hf) (by decide)
        | false =>
          rw [@List.find?_cons_of_neg String (fun p => substrB p t) _ _ (neTrue h2)] at hf
          have hp : substrB "MVG-B" t = true :=
            @List.find?_some String (fun q => substrB q t) "MVG-B" _ hf
          exact absurd (substrB_trans_VGB hp) (neTrue h2)
  refine ⟨by decide, by decide, ?_⟩
  intro v
  cases v with
  | none => decide
  | some s => exact key (pyStrip s)

/-! ## Race entries -/

/-- A Python `pos`/`pos.` cell: an `int` or a string. -/
inductive PosVal where
  | int (n : Int)
  | str (s : String)
deriving DecidableEq

/-- One crew's record in one race, as consumed by the tracker and the Sankey
builder through `entry.get(...)`; a `none` field models an absent key or a
missing (`None`/`NaN`) value.  `posDot` is the `'pos.'` column. -/
structure RaceEntry where
  code : Option String
  ploeg : Option String
  veld : Option String
  crew_member : Option String
  pos : Option PosVal
  posDot : Option PosVal
  race_sub_number : Option String
deriving DecidableEq

/-- `all_race_data`: race-type → race-name → entries, in insertion order. -/
abbrev AllRaceData := List (String × List (String × List RaceEntry))

/-! ## `src/crew_tracking.py`: `track_crew_progression_with_slag` -/

/-- The `stage_names` dict (lines 74-79), in insertion order. -/
def stage_names : List (String × String) :=
  [("voorwedstrijden", "Voorwedstrijden"), ("challenges", "Challenges"),
   ("halve finales", "Halve Finales"), ("finales", "Finales")]

/-- A progression record (lines 101-107). -/
structure CrewProg where
  code : String
  ploeg : Option String
  veld : String
  crew_member : String
  stages : List (String × String)
deriving DecidableEq

/-- Stage-instance identifier (lines 109-113): finals use the parenthesized
form, the other stages the plain trailing form. -/
def mkStageId (stage_name sub : String) : String :=
  if stage_name = "Finales" then stage_name ++ " (" ++ sub ++ ")"
  else stage_name ++ " " ++ sub

/-- Truthiness of the guard `if crew_code and consistent_crew_id` (line 97):
whenever `crew_code` is truthy, `consistent_crew_id` is a nonempty string,
so the guard reduces to truthiness of `crew_code`. -/
def codeOk (e : RaceEntry) : Bool :=
  match e.code with
  | some c => decide (c ≠ "")
  | none => false

/-- `consistent_crew_id` (line 95). -/
def keyOf (e : RaceEntry) : String :=
  let m := (e.crew_member).getD ""
  if m ≠ "" then (e.code).getD "" ++ "_" ++ replaceSpace m else (e.code).getD ""

/-- The record seeded on first encounter of a crew key (lines 100-107). -/
def initOf (e : RaceEntry) : CrewProg :=
  ⟨(e.code).getD "", e.ploeg, extract_veld e.veld, (e.crew_member).getD "", []⟩

/-- `crew_progression[consistent_crew_id]['stages'][stage_name] = stage_id`
(line 115): in-place update of the record at the given key. -/
def updStages : List (String × CrewProg) → String → String → String → List (String × CrewProg)
  | [], _, _, _ => []
  | (k, p) :: rest, cid, sn, sid =>
    if k = cid then
      (k, ⟨p.code, p.ploeg, p.veld, p.crew_member, setA p.stages sn sid⟩) :: rest
    else (k, p) :: updStages rest cid sn sid

/-- Processing of one `(stage display name, entry)` pair (lines 86-115):
skip when `code` is not truthy, otherwise create the record if absent and
then assign the stage identifier under the stage display name. -/
def trackStep (m : List (String × CrewProg)) (se : String × RaceEntry) :
    List (String × CrewProg) :=
  if codeOk se.2 then
    updStages
      (if (findA m (keyOf se.2)).isSome then m else m ++ [(keyOf se.2, initOf se.2)])
      (keyOf se.2) se.1 (mkStageId se.1 ((se.2.race_sub_number).getD "Unknown"))
  else m

/-- The tracker's triple loop flattened into a single entry stream: the four
stage types in the fixed `stage_names` order, then races in input order, then
entries in input order. -/
def flatEntries (d : AllRaceData) : List (String × RaceEntry) :=
  stage_names.flatMap (fun rtsn =>
    ((findA d rtsn.1).getD []).flatMap (fun race => race.2.map (fun e => (rtsn.2, e))))

/-- `track_crew_progression_with_slag` (src/crew_tracking.py, lines 62-117). -/
def track_crew_progression_with_slag (d : AllRaceData) : List (String × CrewProg) :=
  (flatEntries d).foldl trackStep []

/-! Specification-side helpers for the tracker's behaviour. -/

/-- Whether an entry of the stream contributes to crew key `k`. -/
def relevantB (k : String) (se : String × RaceEntry) : Bool :=
  codeOk se.2 && (keyOf se.2 == k)

/-- The entries of the stream that contribute to crew key `k`. -/
def tracked (d : AllRaceData) (k : String) : List (String × RaceEntry) :=
  (flatEntries d).filter (relevantB k)

def stageIdOfEntry (se : String × RaceEntry) : String :=
  mkStageId se.1 ((se.2.race_sub_number).getD "Unknown")

/-- The last entry of `l` whose stage display name is `T`. -/
def lastMatch (l : List (String × RaceEntry)) (T : String) : Option (String × RaceEntry) :=
  l.foldl (fun acc se => if se.1 = T then some se else acc) none

/-- Replay the stage assignments of `l` on top of `p`. -/
def applyStages (p : CrewProg) (l : List (String × RaceEntry)) : CrewProg :=
  ⟨p.code, p.ploeg, p.veld, p.crew_member,
    l.foldl (fun st se => setA st se.1 (stageIdOfEntry se)) p.stages⟩

/-! ### Association-list lemmas -/

@[simp] lemma findA_nil {α : Type} (k : String) : findA ([] : List (String × α)) k = none := rfl

@[simp] lemma findA_cons {α : Type} (k' : String) (v : α) (m : List (String × α)) (k : String) :
    findA ((k', v) :: m) k = if k' = k then some v else findA m k := rfl

@[simp] lemma keysOf_nil {α : Type} : keysOf ([] : List (String × α)) = [] := rfl

@[simp] lemma keysOf_cons {α : Type} (p : String × α) (m : List (String × α)) :
    keysOf (p :: m) = p.1 :: keysOf m := rfl

lemma keysOf_append {α : Type} (a b : List (String × α)) :
    keysOf (a ++ b) = keysOf a ++ keysOf b := by
  simp [keysOf]

lemma findA_setA {α : Type} (m : List (String × α)) (key : String) (v : α) (q : String) :
    findA (setA m key v) q = if key = q then some v else findA m q := by
  induction m with
  | nil => simp [setA]
  | cons hd tl ih =>
    obtain ⟨k, w⟩ := hd
    by_cases hk : k = key
    · subst hk
      simp only [setA, if_pos rfl, findA_cons]
      by_cases hq : k = q <;> simp [hq]
    · simp only [setA, if_neg hk, findA_cons, ih]
      by_cases hq : k = q
      · subst hq
        rw [if_pos rfl, if_neg (fun h => hk h.symm), if_pos rfl]
      · rw [if_neg hq, if_neg hq]

lemma findA_append {α : Type} (m m' : List (String × α)) (q : String) :
    findA (m ++ m') q = match findA m q with | some v => some v | none => findA m' q := by
  induction m with
  | nil => simp
  | cons hd tl ih =>
    obtain ⟨k, w⟩ := hd
    rw [List.cons_append, findA_cons, findA_cons]
    by_cases hq : k = q
    · rw [if_pos hq, if_pos hq]
    · rw [if_neg hq, if_neg hq, ih]

lemma findA_none_iff {α : Type} (m : List (String × α)) (k : String) :
    findA m k = none ↔ k ∉ keysOf m := by
  induction m with
  | nil => simp
  | cons hd tl ih =>
    obtain ⟨k', v⟩ := hd
    rw [findA_cons, keysOf_cons]
    by_cases hk : k' = k
    · subst hk
      simp
    · rw [if_neg hk]
      simp only [List.mem_cons, not_or]
      constructor
      · intro h
        exact ⟨fun hh => hk hh.symm, ih.mp h⟩
      · intro h
        exact ih.mpr h.2

lemma keysOf_setA {α : Type} (m : List (String × α)) (key : String) (v : α) :
    keysOf (setA m key v) = if key ∈ keysOf m then keysOf m else keysOf m ++ [key] := by
  induction m with
  | nil => simp [setA]
  | cons hd tl ih =>
    obtain ⟨k, w⟩ := hd
    by_cases hk : k = key
    · subst hk
      simp [setA]
    · rw [keysOf_cons]
      have hmemiff : (key ∈ k :: keysOf tl) ↔ (key ∈ keysOf tl) := by
        simp only [List.mem_cons, or_iff_right_iff_imp]
        intro hh
        exact absurd hh.symm hk
      simp only [setA, if_neg hk, keysOf_cons, ih]
      by_cases hmem : key ∈ keysOf tl
      · rw [if_pos hmem, if_pos (hmemiff.mpr hmem)]
      · rw [if_neg hmem, if_neg (fun hh => hmem (hmemiff.mp hh)), List.cons_append]

lemma keysOf_setA_nodup {α : Type} (m : List (String × α)) (key : String) (v : α)
    (h : (keysOf m).Nodup) : (keysOf (setA m key v)).Nodup := by
  rw [keysOf_setA]
  by_cases hmem : key ∈ keysOf m
  · rw [if_pos hmem]; exact h
  · rw [if_neg hmem]
    simp [List.nodup_append, h, hmem]

/-! ### `updStages` lemmas -/

lemma findA_updStages_ne (m : List (String × CrewProg)) (cid sn sid q : String)
    (h : q ≠ cid) : findA (updStages m cid sn sid) q = findA m q := by
  induction m with
  | nil => rfl
  | cons hd tl ih =>
    obtain ⟨k, p⟩ := hd
    by_cases hk : k = cid
    · simp only [updStages, if_pos hk, findA_cons]
      rw [if_neg (by rw [hk]; exact fun hh => h hh.symm),
        if_neg (by rw [hk]; exact fun hh => h hh.symm)]
    · simp only [updStages, if_neg hk, findA_cons]
      by_cases hq : k = q
      · rw [if_pos hq, if_pos hq]
      · rw [if_neg hq, if_neg hq, ih]

lemma findA_updStages_self (m : List (String × CrewProg)) (cid sn sid : String)
    (p : CrewProg) (h : findA m cid = some p) :
    findA (updStages m cid sn sid) cid =
      some ⟨p.code, p.ploeg, p.veld, p.crew_member, setA p.stages sn sid⟩ := by
  induction m with
  | nil => exact absurd h (by simp)
  | cons hd tl ih =>
    obtain ⟨k, w⟩ := hd
    by_cases hk : k = cid
    · rw [findA_cons, if_pos hk] at h
      simp only [updStages, if_pos hk, findA_cons, if_pos hk]
      rw [Option.some.inj h]
    · rw [findA_cons, if_neg hk] at h
      simp only [updStages, if_neg hk, findA_cons, if_neg hk]
      exact ih h

lemma keysOf_updStages (m : List (String × CrewProg)) (cid sn sid : String) :
    keysOf (updStages m cid sn sid) = keysOf m := by
  induction m with
  | nil => rfl
  | cons hd tl ih =>
    obtain ⟨k, p⟩ := hd
    by_cases hk : k = cid
    · simp [updStages, if_pos hk]
    · simp only [updStages, if_neg hk, keysOf_cons]
      rw [ih]

/-! ### Tracker characterization -/

lemma lastMatch_acc (T : String) (l : List (String × RaceEntry)) :
    ∀ acc : Option (String × RaceEntry),
      l.foldl (fun acc se => if se.1 = T then some se else acc) acc =
        match lastMatch l T with
        | some x => some x
        | none => acc := by
  induction l with
  | nil => intro acc; rfl
  | cons se rest ih =>
    intro acc
    rw [List.foldl_cons, ih]
    have hR : lastMatch (se :: rest) T =
        match lastMatch rest T with
        | some x => some x
        | none => if se.1 = T then some se else none := by
      unfold lastMatch
      rw [List.foldl_cons, ih]
      rfl
    rw [hR]
    cases lastMatch rest T with
    | some x => rfl
    | none => by_cases hT : se.1 = T <;> simp [hT]

lemma stages_replay (lk : List (String × RaceEntry)) :
    ∀ (st0 : List (String × String)) (T : String),
      findA (lk.foldl (fun st se => setA st se.1 (stageIdOfEntry se)) st0) T =
        match lastMatch lk T with
        | some se => some (stageIdOfEntry se)
        | none => findA st0 T := by
  induction lk with
  | nil => intro st0 T; rfl
  | cons se rest ih =>
    intro st0 T
    rw [List.foldl_cons, ih]
    have hR : lastMatch (se :: rest) T =
        match lastMatch rest T with
        | some x => some x
        | none => if se.1 = T then some se else none := by
      unfold lastMatch
      rw [List.foldl_cons, lastMatch_acc]
      rfl
    rw [hR]
    cases lastMatch rest T with
    | some x => rfl
    | none =>
      rw [findA_setA]
      by_cases hT : se.1 = T <;> simp [hT]

/-- Update of one record by one entry's stage assignment. -/
def updOne (p : CrewProg) (se : String × RaceEntry) : CrewProg :=
  ⟨p.code, p.ploeg, p.veld, p.crew_member, setA p.stages se.1 (stageIdOfEntry se)⟩

lemma applyStages_nil (p : CrewProg) : applyStages p [] = p := rfl

lemma applyStages_cons (p : CrewProg) (se : String × RaceEntry)
    (lk : List (String × RaceEntry)) :
    applyStages p (se :: lk) = applyStages (updOne p se) lk := rfl

lemma findA_trackStep_irrelevant (m : List (String × CrewProg)) (se : String × RaceEntry)
    (k : String) (h : relevantB k se = false) :
    findA (trackStep m se) k = findA m k := by
  unfold trackStep
  cases hok : codeOk se.2 with
  | false => rw [if_neg Bool.false_ne_true]
  | true =>
    rw [if_pos rfl]
    have hne : keyOf se.2 ≠ k := by
      intro hh
      unfold relevantB at h
      rw [hok, hh] at h
      simp at h
    have hkne : k ≠ keyOf se.2 := fun hh => hne hh.symm
    rw [findA_updStages_ne _ _ _ _ _ hkne]
    by_cases hm : (findA m (keyOf se.2)).isSome
    · rw [if_pos hm]
    · rw [if_neg hm, findA_append]
      cases hfm : findA m k with
      | some v => rfl
      | none => simp [if_neg hne]

lemma findA_trackStep_relevant (m : List (String × CrewProg)) (se : String × RaceEntry)
    (k : String) (hok : codeOk se.2 = true) (hkeq : keyOf se.2 = k) :
    findA (trackStep m se) k =
      some (updOne (match findA m k with | some p => p | none => initOf se.2) se) := by
  unfold trackStep
  rw [if_pos hok, hkeq]
  cases hfm : findA m k with
  | some p =>
    rw [if_pos (show (some p).isSome = true from rfl)]
    exact findA_updStages_self m k _ _ p hfm
  | none =>
    rw [if_neg (by simp)]
    have hinit : findA (m ++ [(k, initOf se.2)]) k = some (initOf se.2) := by
      rw [findA_append, hfm]
      simp
    exact findA_updStages_self _ k _ _ _ hinit

/-- Master characterization of the tracker fold: the record at key `k` is
obtained from the first relevant entry's seed metadata by replaying all
relevant entries' stage assignments in stream order. -/
lemma track_char (l : List (String × RaceEntry)) :
    ∀ (m : List (String × CrewProg)) (k : String),
      findA (l.foldl trackStep m) k =
        match findA m k with
        | some p => some (applyStages p (l.filter (relevantB k)))
        | none =>
          match l.filter (relevantB k) with
          | [] => none
          | e0 :: lk => some (applyStages (initOf e0.2) (e0 :: lk)) := by
  induction l with
  | nil =>
    intro m k
    cases h : findA m k with
    | some p => simp [h, applyStages_nil]
    | none => simp [h]
  | cons se rest ih =>
    intro m k
    rw [List.foldl_cons]
    cases hrel : relevantB k se with
    | false =>
      rw [ih, findA_trackStep_irrelevant m se k hrel,
        List.filter_cons_of_neg (neTrue hrel)]
    | true =>
      have hok : codeOk se.2 = true := by
        unfold relevantB at hrel
        exact (Bool.and_eq_true_iff.mp hrel).1
      have hkeq : keyOf se.2 = k := by
        unfold relevantB at hrel
        have := (Bool.and_eq_true_iff.mp hrel).2
        simpa using this
      rw [ih, findA_trackStep_relevant m se k hok hkeq,
        List.filter_cons_of_pos hrel]
      cases hfm : findA m k with
      | some p => rfl
      | none => rfl

lemma keysOf_trackStep_nodup (m : List (String × CrewProg)) (se : String × RaceEntry)
    (h : (keysOf m).Nodup) : (keysOf (trackStep m se)).Nodup := by
  unfold trackStep
  by_cases hok : codeOk se.2 = true
  · rw [if_pos hok, keysOf_updStages]
    by_cases hm : (findA m (keyOf se.2)).isSome
    · rw [if_pos hm]; exact h
    · rw [if_neg hm, keysOf_append]
      have hnm : keyOf se.2 ∉ keysOf m := by
        rw [← findA_none_iff]
        cases hf : findA m (keyOf se.2) with
        | some v => rw [hf] at hm; simp at hm
        | none => rfl
      simp [List.nodup_append, h, hnm]
  · rw [if_neg hok]; exact h

lemma track_keys_nodup (l : List (String × RaceEntry)) :
    ∀ m, (keysOf m).Nodup → (keysOf (l.foldl trackStep m)).Nodup := by
  induction l with
  | nil => exact fun _ h => h
  | cons se rest ih => exact fun m h => ih _ (keysOf_trackStep_nodup m se h)

lemma setA_fold_nodup (lk : List (String × RaceEntry)) :
    ∀ st0 : List (String × String), (keysOf st0).Nodup →
      (keysOf (lk.foldl (fun st se => setA st se.1 (stageIdOfEntry se)) st0)).Nodup := by
  induction lk with
  | nil => exact fun _ h => h
  | cons se rest ih =>
    intro st0 h
    rw [List.foldl_cons]
    exact ih _ (keysOf_setA_nodup _ _ _ h)

lemma foldl_trackStep_filter (l : List (String × RaceEntry)) :
    ∀ m, l.foldl trackStep m = (l.filter (fun se => codeOk se.2)).foldl trackStep m := by
  induction l with
  | nil => intro m; rfl
  | cons se rest ih =>
    intro m
    rw [List.foldl_cons]
    by_cases hok : codeOk se.2 = true
    · have hfc : List.filter (fun se : String × RaceEntry => codeOk se.2) (se :: rest) =
          se :: List.filter (fun se => codeOk se.2) rest := by
        simp [List.filter_cons, hok]
      rw [hfc, List.foldl_cons, ih]
    · have hfc : List.filter (fun se : String × RaceEntry => codeOk se.2) (se :: rest) =
          List.filter (fun se => codeOk se.2) rest := by
        simp [List.filter_cons, hok]
      rw [hfc, ← ih]
      have hid : trackStep m se = m := by
        unfold trackStep
        rw [if_neg hok]
      rw [hid]

lemma lastMatch_isSome (l : List (String × RaceEntry)) (T : String) :
    (lastMatch l T).isSome = l.any (fun se => se.1 == T) := by
  induction l with
  | nil => rfl
  | cons se rest ih =>
    have hR : lastMatch (se :: rest) T =
        match lastMatch rest T with
        | some x => some x
        | none => if se.1 = T then some se else none := by
      unfold lastMatch
      rw [List.foldl_cons, lastMatch_acc]
      rfl
    rw [hR, List.any_cons]
    cases hr : lastMatch rest T with
    | some x =>
      have hany : rest.any (fun se => se.1 == T) = true := by rw [← ih, hr]; rfl
      simp [hany]
    | none =>
      have hany : rest.any (fun se => se.1 == T) = false := by rw [← ih, hr]; rfl
      by_cases hT : se.1 = T <;> simp [hT, hany]

/-! ### C4/C8 concrete data -/

/-- A crew (code `117`, no named rower) racing in qualifying race 1 ... -/
def eC4a : RaceEntry :=
  ⟨some "117", some "Team X", some "VE 2x", none, some (PosVal.int 1), none, some "1"⟩

/-- ... and again in qualifying race 2. -/
def eC4b : RaceEntry :=
  ⟨some "117", some "Team X", some "VE 2x", none, some (PosVal.int 2), none, some "2"⟩

/-- A dataset in which crew `117` appears in two races of the same stage type. -/
def dC4 : AllRaceData :=
  [("voorwedstrijden", [("voorwedstrijd 1", [eC4a]), ("voorwedstrijd 2", [eC4b])])]

/-- C4 counterexample: for a crew with entries in two races of the same stage
type, the tracker stores the stage-instance identifier of the LAST entry
(`"Voorwedstrijden 2"`), not the one of the crew's first entry in that stage
type (`"Voorwedstrijden 1"`) as the claim states: line 115 of
src/crew_tracking.py overwrites `stages[stage_name]` unconditionally. -/
theorem C4_counterexample :
    (findA (track_crew_progression_with_slag dC4) "117").map
        (fun p => findA p.stages "Voorwedstrijden") = some (some "Voorwedstrijden 2") ∧
    some (some "Voorwedstrijden 2") ≠ some (some "Voorwedstrijden 1") := by
  exact ⟨by decide, by decide⟩

/-- C4 amended: the tracker only creates fresh records or assigns stage
entries (never deletes); the seeded metadata (`code`, `ploeg`, classified
`veld`, `crew_member`) keeps the first-seen values; but the stage-instance
identifier stored for a stage type is the one of the crew's LAST entry in
that stage type (later entries of the same stage type overwrite it). -/
theorem C4_tracker_amended (d : AllRaceData) (k : String) :
    (tracked d k = [] → findA (track_crew_progression_with_slag d) k = none) ∧
    (∀ e0 rest, tracked d k = e0 :: rest →
      ∃ p, findA (track_crew_progression_with_slag d) k = some p ∧
        p.code = (e0.2.code).getD "" ∧ p.ploeg = e0.2.ploeg ∧
        p.veld = extract_veld e0.2.veld ∧ p.crew_member = (e0.2.crew_member).getD "" ∧
        ∀ T, findA p.stages T = (lastMatch (tracked d k) T).map stageIdOfEntry) := by
  have hchar := track_char (flatEntries d) [] k
  rw [findA_nil] at hchar
  constructor
  · intro hnil
    have hfilt : (flatEntries d).filter (relevantB k) = [] := hnil
    show findA ((flatEntries d).foldl trackStep []) k = none
    rw [hchar, hfilt]
  · intro e0 rest hcons
    have hfilt : (flatEntries d).filter (relevantB k) = e0 :: rest := hcons
    refine ⟨applyStages (initOf e0.2) (e0 :: rest), ?_, rfl, rfl, rfl, rfl, ?_⟩
    · show findA ((flatEntries d).foldl trackStep []) k = _
      rw [hchar, hfilt]
    · intro T
      rw [hcons]
      have hrepl := stages_replay (e0 :: rest) [] T
      show findA ((e0 :: rest).foldl (fun st se => setA st se.1 (stageIdOfEntry se)) []) T = _
      rw [hrepl]
      cases lastMatch (e0 :: rest) T with
      | some x => rfl
      | none => rfl

/-- C4 witness: the amended theorem applied to the concrete dataset `dC4`. -/
theorem C4_witness :
    ∃ p, findA (track_crew_progression_with_slag dC4) "117" = some p ∧
      p.code = ((("Voorwedstrijden", eC4a) : String × RaceEntry).2.code).getD "" ∧
      p.ploeg = (("Voorwedstrijden", eC4a) : String × RaceEntry).2.ploeg ∧
      p.veld = extract_veld (("Voorwedstrijden", eC4a) : String × RaceEntry).2.veld ∧
      p.crew_member = ((("Voorwedstrijden", eC4a) : String × RaceEntry).2.crew_member).getD "" ∧
      ∀ T, findA p.stages T = (lastMatch (tracked dC4 "117") T).map stageIdOfEntry :=
  (C4_tracker_amended dC4 "117").2 ("Voorwedstrijden", eC4a) [("Voorwedstrijden", eC4b)]
    (by decide)

/-- C8: the progression mapping has duplicate-free crew keys; a crew key is
present exactly when some entry with a truthy `code` produces it; a record's
`stages` mapping has duplicate-free stage-type keys and contains a stage type
exactly when the crew appeared in that stage type; and entries whose `code`
is missing or empty are silently skipped (the tracker output equals the
output on the stream with those entries filtered out, and the tracker is a
total function, so such entries never cause a failure). -/
theorem C8_progression_completeness (d : AllRaceData) :
    (keysOf (track_crew_progression_with_slag d)).Nodup ∧
    (∀ k, (findA (track_crew_progression_with_slag d) k).isSome = true ↔ tracked d k ≠ []) ∧
    (∀ k p, findA (track_crew_progression_with_slag d) k = some p →
      (keysOf p.stages).Nodup ∧
      ∀ T, ((findA p.stages T).isSome = true ↔
        (tracked d k).any (fun se => se.1 == T) = true)) ∧
    track_crew_progression_with_slag d =
      ((flatEntries d).filter (fun se => codeOk se.2)).foldl trackStep [] := by
  refine ⟨track_keys_nodup (flatEntries d) [] (by simp), ?_, ?_, foldl_trackStep_filter _ []⟩
  · intro k
    have hchar := track_char (flatEntries d) [] k
    rw [findA_nil] at hchar
    cases hfl : (flatEntries d).filter (relevantB k) with
    | nil =>
      have h0 : findA ((flatEntries d).foldl trackStep []) k = none := by rw [hchar, hfl]
      constructor
      · intro hh
        rw [show track_crew_progression_with_slag d = (flatEntries d).foldl trackStep []
          from rfl, h0] at hh
        exact absurd hh (by decide)
      · intro hh
        exact absurd (show tracked d k = [] from hfl) hh
    | cons e0 lk =>
      have h1 : findA ((flatEntries d).foldl trackStep []) k =
          some (applyStages (initOf e0.2) (e0 :: lk)) := by rw [hchar, hfl]
      constructor
      · intro _
        rw [show tracked d k = e0 :: lk from hfl]
        exact List.cons_ne_nil e0 lk
      · intro _
        rw [show track_crew_progression_with_slag d = (flatEntries d).foldl trackStep []
          from rfl, h1]
        rfl
  · intro k p hp
    have hchar := track_char (flatEntries d) [] k
    rw [findA_nil] at hchar
    cases hfl : (flatEntries d).filter (relevantB k) with
    | nil =>
      have h0 : findA ((flatEntries d).foldl trackStep []) k = none := by rw [hchar, hfl]
      rw [show track_crew_progression_with_slag d = (flatEntries d).foldl trackStep []
        from rfl, h0] at hp
      exact absurd hp (by simp)
    | cons e0 lk =>
      have h1 : findA ((flatEntries d).foldl trackStep []) k =
          some (applyStages (initOf e0.2) (e0 :: lk)) := by rw [hchar, hfl]
      rw [show track_crew_progression_with_slag d = (flatEntries d).foldl trackStep []
        from rfl, h1] at hp
      have hpe : p = applyStages (initOf e0.2) (e0 :: lk) := (Option.some.inj hp).symm
      subst hpe
      constructor
      · exact setA_fold_nodup (e0 :: lk) [] (by simp)
      · intro T
        have hiso : (findA (applyStages (initOf e0.2) (e0 :: lk)).stages T).isSome =
            (lastMatch (e0 :: lk) T).isSome := by
          have hrepl := stages_replay (e0 :: lk) [] T
          show (findA ((e0 :: lk).foldl (fun st se => setA st se.1 (stageIdOfEntry se)) []) T).isSome = _
          rw [hrepl]
          cases lastMatch (e0 :: lk) T with
          | some x => rfl
          | none => rfl
        rw [hiso, lastMatch_isSome, show tracked d k = e0 :: lk from hfl]

/-! ## `src/visualization.py`: regex models -/

/-- The character class `[A-G]` under `re.IGNORECASE`. -/
def isAG (c : Char) : Bool :=
  (['A', 'B', 'C', 'D', 'E', 'F', 'G'].contains c) ||
  (['a', 'b', 'c', 'd', 'e', 'f', 'g'].contains c)

/-- `.upper()` restricted to characters matched by `[A-G]` (the only
characters the source upcases out of a regex group). -/
def agUpper (c : Char) : Char :=
  match c with
  | 'a' => 'A' | 'b' => 'B' | 'c' => 'C' | 'd' => 'D'
  | 'e' => 'E' | 'f' => 'F' | 'g' => 'G' | _ => c

/-- Case-insensitive match of the lowercase literal `pat` at the head of `l`
(`re.IGNORECASE` literal semantics). -/
def icPrefixB (pat : String) (l : List Char) : Bool :=
  ((l.take pat.data.length).map Char.toLower) == pat.data

/-- `re.search(r'([A-G])-finale', name, re.IGNORECASE)` (lines 46, 315, 355):
the leftmost position holding an `[A-G]` character followed by `-finale`,
returning the upcased group. -/
def findFinaleLetter : List Char → Option Char
  | [] => none
  | c :: rest =>
    if isAG c && icPrefixB "-finale" rest then some (agUpper c)
    else findFinaleLetter rest

/-- One attempted match of `halve-([A-G]+)-finale` at the head of `l`: the
greedy group is the maximal run of `[A-G]` characters, after which the
literal `-finale` must follow (no backtracking is possible because `-` is
outside the class). -/
def tryHalveAt (l : List Char) : Option String :=
  if icPrefixB "halve-" l then
    if ((l.drop 6).takeWhile isAG) ≠ [] then
      if icPrefixB "-finale" ((l.drop 6).dropWhile isAG) then
        some (String.mk (((l.drop 6).takeWhile isAG).map agUpper))
      else none
    else none
  else none

/-- `re.search(r'halve-([A-G]+)-finale', name, re.IGNORECASE)` (line 51). -/
def findHalveGroup : List Char → Option String
  | [] => none
  | c :: rest =>
    match tryHalveAt (c :: rest) with
    | some g => some g
    | none => findHalveGroup rest

/-! ## `detect_competition_format` -/

/-- The configuration returned by `detect_competition_format`. -/
structure Config where
  veld_order : List String
  boat_class : String
  finale_letters : List String
  halve_finale_groups : List String
  prefix_patterns : List (String × String)
deriving DecidableEq

/-- Veld-category collection step (lines 38-41): truthy and not `'Unknown'`. -/
def addVeldOf (a : List String) (e : RaceEntry) : List String :=
  if (e.veld).getD "" ≠ "" ∧ (e.veld).getD "" ≠ "Unknown" then addDedup a ((e.veld).getD "")
  else a

def veldCategoriesOf (d : AllRaceData) : List String :=
  d.foldl (fun acc rt => rt.2.foldl (fun acc2 race => race.2.foldl addVeldOf acc2) acc) []

/-- Finale-letter collection for one race name (lines 44-48). -/
def addFinaleLetterOf (a : List String) (raceName : String) : List String :=
  if substrB "finale" (lowerStr raceName) then
    match findFinaleLetter raceName.data with
    | some c => addDedup a (String.mk [c])
    | none => a
  else a

/-- Halve-finale-group collection for one race name (lines 50-53). -/
def addHalveGroupOf (a : List String) (raceName : String) : List String :=
  if substrB "finale" (lowerStr raceName) then
    match findHalveGroup raceName.data with
    | some g => addDedup a g
    | none => a
  else a

def finaleLettersOf (d : AllRaceData) : List String :=
  d.foldl (fun acc rt => rt.2.foldl (fun acc2 race => addFinaleLetterOf acc2 race.1) acc) []

def halveGroupsOf (d : AllRaceData) : List String :=
  d.foldl (fun acc rt => rt.2.foldl (fun acc2 race => addHalveGroupOf acc2 race.1) acc) []

/-- `veld_list = sorted(list(veld_categories))` (line 56). -/
def veldListOf (d : AllRaceData) : List String := sortStr (veldCategoriesOf d)

/-- Boat-class detection step (lines 60-68). -/
def addBoatClassOf (acc : List String) (veld : String) : List String :=
  if substrB "2x" veld then addDedup acc "2x"
  else if substrB "4-" veld then addDedup acc "4-"
  else if substrB "4+" veld then addDedup acc "4+"
  else if substrB "8+" veld then addDedup acc "8+"
  else acc

def boatClassesOf (d : AllRaceData) : List String :=
  (veldListOf d).foldl addBoatClassOf []

/-- `list(boat_classes)[0] if boat_classes else '2x'` (line 108): the pick
from the unordered Python set, modeled by an arbitrary index `k` into the
set's elements — Python's string-set iteration order is unspecified (it
varies with per-process hash randomization), so `k` stands for whichever
order a given run produces. -/
def pickSet (k : Nat) (l : List String) : String :=
  match l with
  | [] => "2x"
  | _ => l.getD (k % l.length) "2x"

/-- Prefix-pattern detection for one veld (lines 72-105). -/
def prefixStepOf (pp : List (String × String)) (veld : String) : List (String × String) :=
  let pp1 :=
    if substrB "E" veld && !startsWithB "L" veld then
      (if startsWithB "VE" veld then setA pp "E" "V"
       else if startsWithB "ME" veld then setA pp "E" "M" else pp)
    else pp
  let pp2 :=
    if substrB "G" veld && !startsWithB "L" veld then
      (if startsWithB "VG" veld then setA pp1 "G" "V"
       else if startsWithB "MG" veld then setA pp1 "G" "M" else pp1)
    else pp1
  let pp3 :=
    if substrB "B" veld && !startsWithB "L" veld && !substrB "G-B" veld then
      (if startsWithB "VB" veld then setA pp2 "B" "V"
       else if startsWithB "MB" veld then setA pp2 "B" "M" else pp2)
    else pp2
  let pp4 :=
    if substrB "LVE" veld || substrB "LME" veld then
      (if substrB "LVE" veld then setA pp3 "LE" "LV"
       else if substrB "LME" veld then setA pp3 "LE" "LM" else pp3)
    else pp3
  let pp5 :=
    if substrB "LVG" veld || substrB "LMG" veld then
      (if substrB "LVG" veld then setA pp4 "LG" "LV"
       else if substrB "LMG" veld then setA pp4 "LG" "LM" else pp4)
    else pp4
  if substrB "LVB" veld || substrB "LMB" veld then
    (if substrB "LVB" veld then setA pp5 "LB" "LV"
     else if substrB "LMB" veld then setA pp5 "LB" "LM" else pp5)
  else pp5

def prefixPatternsOf (d : AllRaceData) : List (String × String) :=
  (veldListOf d).foldl prefixStepOf []

/-- The standardized `base_order` template (lines 115-124). -/
def baseOrderOf (bc : String) (d : AllRaceData) : List String :=
  [(findA (prefixPatternsOf d) "E").getD "V" ++ "E " ++ bc,
   (findA (prefixPatternsOf d) "E").getD "V" ++ "G " ++ bc,
   (findA (prefixPatternsOf d) "E").getD "V" ++ "G-B " ++ bc,
   (findA (prefixPatternsOf d) "E").getD "V" ++ "B " ++ bc,
   (findA (prefixPatternsOf d) "LE").getD "LV" ++ "E " ++ bc,
   (findA (prefixPatternsOf d) "LG").getD "LV" ++ "G " ++ bc,
   (findA (prefixPatternsOf d) "LG").getD "LV" ++ "G-B " ++ bc,
   (findA (prefixPatternsOf d) "LB").getD "LV" ++ "B " ++ bc]

/-- `detect_competition_format` (lines 12-163) with the boat-class pick
factored out: the pick is the only place where unordered-set iteration
order can influence the result (every other set is consumed through
`sorted` or membership tests, both order-independent). -/
def detectCore (bc : String) (d : AllRaceData) : Config :=
  let pp := prefixPatternsOf d
  let base_order := baseOrderOf bc d
  let veld_order0 := base_order.filter (fun v => (veldCategoriesOf d).contains v)
  let remaining := (veldListOf d).filter (fun v => !veld_order0.contains v)
  let finale_list := sortStr (finaleLettersOf d)
  let halve0 := sortStr (halveGroupsOf d)
  Config.mk
    (veld_order0 ++ sortStr remaining)
    bc
    finale_list
    (if halve0 = [] then
      (if finale_list.length ≤ 3 then ["ABC"]
       else if finale_list.length ≤ 4 then ["ABC", "DE"]
       else if finale_list.length ≤ 6 then ["ABC", "DEFG"]
       else ["ABC", "DEFG"])
     else halve0)
    pp

def detect_competition_format (k : Nat) (d : AllRaceData) : Config :=
  detectCore (pickSet k (boatClassesOf d)) d

/-! ## Colors and halve-finale group resolution -/

/-- `get_adaptive_colors` (lines 166-215); the palette hex literals are
inlined (red_dark, hot_pink, green_bright, brown, red_bright,
orange_bright, blue_bright, gray). -/
def get_adaptive_colors (cfg : Config) : List (String × String) :=
  let bc := cfg.boat_class
  let mainPref := (findA cfg.prefix_patterns "E").getD "V"
  let lPref := (findA cfg.prefix_patterns "LG").getD "LV"
  let lePref := (findA cfg.prefix_patterns "LE").getD "LV"
  let lbPref := (findA cfg.prefix_patterns "LB").getD "LV"
  cfg.veld_order.foldl (fun vc veld =>
    if veld = lePref ++ "E " ++ bc then setA vc veld "#8B0000"
    else if veld = lPref ++ "G-B " ++ bc then setA vc veld "#FF1493"
    else if veld = lPref ++ "G " ++ bc then setA vc veld "#00FF7F"
    else if veld = lbPref ++ "B " ++ bc then setA vc veld "#8B4513"
    else if veld = mainPref ++ "E " ++ bc then setA vc veld "#E74C3C"
    else if veld = mainPref ++ "G-B " ++ bc then setA vc veld "#FF8C00"
    else if veld = mainPref ++ "G " ++ bc then setA vc veld "#3498DB"
    else if veld = mainPref ++ "B " ++ bc then setA vc veld "#95A5A6"
    else setA vc veld "#95A5A6") []

/-- `create_adaptive_halve_finale_groups` (lines 218-237). -/
def create_adaptive_halve_finale_groups (race_name : String) (cfg : Config) : String :=
  match cfg.halve_finale_groups.find? (fun g => substrB g (upperStr race_name)) with
  | some g => g
  | none =>
    if substrB "ABC" (upperStr race_name) then "ABC"
    else if substrB "DEFG" (upperStr race_name) then "DEFG"
    else if substrB "DE" (upperStr race_name) then "DE"
    else "OTHER"

/-- `get_finale_group_from_letter` (lines 240-267). -/
def get_finale_group_from_letter (finale_letter : String) (cfg : Config) : String :=
  if cfg.halve_finale_groups.contains "ABC"
      && ["A", "B", "C"].contains (upperStr finale_letter) then "ABC"
  else if cfg.halve_finale_groups.contains "DEFG"
      && ["D", "E", "F", "G"].contains (upperStr finale_letter) then "DEFG"
  else if cfg.halve_finale_groups.contains "DE"
      && ["D", "E"].contains (upperStr finale_letter) then "DE"
  else if ["A", "B", "C"].contains (upperStr finale_letter) then "ABC"
  else if ["D", "E"].contains (upperStr finale_letter) then "DE"
  else if ["F", "G"].contains (upperStr finale_letter) then "FG"
  else "OTHER"

/-! ## Flow building (`create_four_column_cumulative_sankey`, step 1) -/

/-- One `(source, target, weight)` flow triple. -/
abbrev FlowTriple := String × String × Nat

/-- The builder's accumulating state: the `flows` list and the
`node_counts` defaultdict. -/
structure FlowState where
  flows : List FlowTriple
  counts : List (String × Nat)
deriving DecidableEq

/-- `flows.append((s, t, w)); node_counts[s] += w; node_counts[t] += w`. -/
def addFlow (s t : String) (w : Nat) (st : FlowState) : FlowState :=
  ⟨st.flows ++ [(s, t, w)], incr (incr st.counts s w) t w⟩

/-- Column 1 → column 2 flow for one semifinal entry (lines 298-306). -/
def pass1Entry (g : String) (st : FlowState) (e : RaceEntry) : FlowState :=
  if (e.veld).getD "Unknown" ≠ "" ∧ (e.veld).getD "Unknown" ≠ "Unknown" then
    addFlow ("Veld " ++ (e.veld).getD "Unknown") (g ++ "_" ++ (e.veld).getD "Unknown") 1 st
  else st

def pass1Race (cfg : Config) (st : FlowState) (race : String × List RaceEntry) : FlowState :=
  race.2.foldl (pass1Entry (create_adaptive_halve_finale_groups race.1 cfg)) st

/-- Processing of the `'halve finales'` data (lines 290-306). -/
def pass1 (cfg : Config) (d : AllRaceData) (st : FlowState) : FlowState :=
  match findA d "halve finales" with
  | some races => races.foldl (pass1Race cfg) st
  | none => st

/-- Per-race veld → crew-count dict (lines 327-331). -/
def addVeldCount (m : List (String × Nat)) (e : RaceEntry) : List (String × Nat) :=
  if (e.veld).getD "Unknown" ≠ "" ∧ (e.veld).getD "Unknown" ≠ "Unknown" then
    incr m ((e.veld).getD "Unknown") 1
  else m

def veldCountsOf (entries : List RaceEntry) : List (String × Nat) :=
  entries.foldl addVeldCount []

/-- Column 2 → column 3 flows for one finale race (lines 311-338). -/
def pass2Race (cfg : Config) (st : FlowState) (race : String × List RaceEntry) : FlowState :=
  match findFinaleLetter race.1.data with
  | none => st
  | some L =>
    (veldCountsOf race.2).foldl
      (fun st2 vc =>
        addFlow (get_finale_group_from_letter (String.mk [L]) cfg ++ "_" ++ vc.1)
          ("Finale " ++ String.mk [L]) vc.2 st2) st

def pass2 (cfg : Config) (d : AllRaceData) (st : FlowState) : FlowState :=
  match findA d "finales" with
  | some races => races.foldl (pass2Race cfg) st
  | none => st

/-- Python truthiness of a `pos` cell (`entry.get('pos','') or ...`). -/
def posTruthy : PosVal → Bool
  | .int n => decide (n ≠ 0)
  | .str s => decide (s ≠ "")

/-- `get_position` (lines 364-371): integers pass through, all-digit strings
parse, anything else gets the "worst" sentinel 999. -/
def get_position (e : RaceEntry) : Int :=
  match (if posTruthy ((e.pos).getD (PosVal.str "")) then (e.pos).getD (PosVal.str "")
         else (e.posDot).getD (PosVal.str "")) with
  | .int n => n
  | .str s =>
    match digitsVal s.data with
    | some n => (n : Int)
    | none => 999

/-- `finale_position_offsets` (lines 344-349): 6 rank slots per finale
letter, letters in sorted order. -/
def mkOffsets : List String → Nat → List (String × Nat)
  | [], _ => []
  | L :: ls, off => (L, off) :: mkOffsets ls (off + 6)

def finaleOffsets (cfg : Config) : List (String × Nat) :=
  mkOffsets (sortStr cfg.finale_letters) 0

/-- Column 3 → column 4 flow for one sorted-and-enumerated entry
(lines 376-383): every index consumes a rank slot, but a flow is emitted
only when the category is known. -/
def pass3Entry (source : String) (off : Nat) (st : FlowState) (ie : Nat × RaceEntry) :
    FlowState :=
  if (ie.2.veld).getD "Unknown" ≠ "" ∧ (ie.2.veld).getD "Unknown" ≠ "Unknown" then
    addFlow source
      ("Eindklassering " ++ toString (off + ie.1 + 1) ++ " (" ++ (ie.2.veld).getD "Unknown" ++ ")")
      1 st
  else st

def pass3Race (cfg : Config) (st : FlowState) (race : String × List RaceEntry) : FlowState :=
  match findFinaleLetter race.1.data with
  | none => st
  | some L =>
    ((sortByKey get_position race.2).enum).foldl
      (pass3Entry ("Finale " ++ String.mk [L])
        ((findA (finaleOffsets cfg) (String.mk [L])).getD 0)) st

def pass3 (cfg : Config) (d : AllRaceData) (st : FlowState) : FlowState :=
  match findA d "finales" with
  | some races => races.foldl (pass3Race cfg) st
  | none => st

/-- Step 1 of `create_four_column_cumulative_sankey`: all flows and the
`node_counts` accumulator. -/
def buildFlows (cfg : Config) (d : AllRaceData) : FlowState :=
  pass3 cfg d (pass2 cfg d (pass1 cfg d ⟨[], []⟩))

/-! ## Column node lists (step 2) -/

/-- Column-2 candidacy (line 403). -/
def isCol2Node (n : String) : Bool :=
  substrB "_" n && !startsWithB "Eindklassering" n && !startsWithB "Veld" n

/-- First configured group whose prefix matches (lines 404-409). -/
def firstGroup (cfg : Config) (n : String) : Option String :=
  cfg.halve_finale_groups.find? (fun g => startsWithB (g ++ "_") n)

/-- `get_veld_priority` (lines 416-420). -/
def get_veld_priority (cfg : Config) (node : String) : Int :=
  match cfg.veld_order.findIdx? (fun veld => substrB veld node) with
  | some i => (i : Int)
  | none => 999

def sort_by_veld (cfg : Config) (l : List String) : List String :=
  sortByKey (get_veld_priority cfg) l

/-- Column 1 (line 393). -/
def col1Nodes (cfg : Config) (counts : List (String × Nat)) : List String :=
  (cfg.veld_order.map (fun v => "Veld " ++ v)).filter (fun n => memKey counts n)

/-- Column-2 members assigned to group `g`, in `node_counts` key order. -/
def groupNodesOf (cfg : Config) (counts : List (String × Nat)) (g : String) : List String :=
  (keysOf counts).filter (fun n => isCol2Node n && (firstGroup cfg n == some g))

/-- Column-2 members not matching any configured group. -/
def otherNodesOf (cfg : Config) (counts : List (String × Nat)) : List String :=
  (keysOf counts).filter (fun n => isCol2Node n && (firstGroup cfg n == none))

/-- Column 2 (lines 395-427): groups in sorted order, each sorted by veld
priority, then the unassigned candidates. -/
def col2Nodes (cfg : Config) (counts : List (String × Nat)) : List String :=
  (sortStr cfg.halve_finale_groups).flatMap
      (fun g => sort_by_veld cfg (groupNodesOf cfg counts g)) ++
    sort_by_veld cfg (otherNodesOf cfg counts)

/-- Column 3 (lines 429-431). -/
def col3Nodes (cfg : Config) (counts : List (String × Nat)) : List String :=
  ((sortStr cfg.finale_letters).map (fun L => "Finale " ++ L)).filter
    (fun n => memKey counts n)

/-- Suffix after the first occurrence of `sep` (`split(sep)[1]`, start). -/
def afterFirst (sep : List Char) : List Char → Option (List Char)
  | [] => none
  | c :: rest =>
    if sep.isPrefixOf (c :: rest) then some ((c :: rest).drop sep.length)
    else afterFirst sep rest

/-- Prefix up to the next occurrence of `sep` (`split(sep)[1]`, end). -/
def untilNext (sep : List Char) : List Char → List Char
  | [] => []
  | c :: rest => if sep.isPrefixOf (c :: rest) then [] else c :: untilNext sep rest

/-- `get_position_number` (lines 437-441):
`int(node.split('Eindklassering ')[1].split(' ')[0])`, any failure giving
the sentinel 999. -/
def get_position_number (node : String) : Int :=
  match afterFirst "Eindklassering ".data node.data with
  | none => 999
  | some rest =>
    match pyInt ((untilNext "Eindklassering ".data rest).takeWhile (fun c => c ≠ ' ')) with
    | some n => n
    | none => 999

/-- Column 4 (lines 433-442). -/
def col4Nodes (counts : List (String × Nat)) : List String :=
  sortByKey get_position_number
    ((keysOf counts).filter (fun n => startsWithB "Eindklassering" n))

/-- `all_nodes` (line 489). -/
def allNodesOf (cfg : Config) (counts : List (String × Nat)) : List String :=
  col1Nodes cfg counts ++ col2Nodes cfg counts ++ col3Nodes cfg counts ++ col4Nodes counts

/-! ## Layout (`calc_positions`, step 3) -/

/-- The loop of `calc_positions` (lines 450-462), over exact rationals. -/
def cpGo (counts : List (String × Nat)) (total x_pos : ℚ) :
    List String → ℚ → List (String × ℚ × ℚ)
  | [], _ => []
  | n :: ns, cum =>
    (n, x_pos, max 0.001 (min 0.999 ((cum + (countOf counts n : ℚ) / 2) / total))) ::
      cpGo counts total x_pos ns (cum + (countOf counts n : ℚ))

/-- `calc_positions` (lines 450-462).  In Python a nonempty `nodes` with a
zero `total` would raise `ZeroDivisionError`; in ℚ the division totalizes
to 0 — C10 shows the zero divisor is unreachable. -/
def calc_positions (nodes : List String) (counts : List (String × Nat)) (x_pos : ℚ) :
    List (String × ℚ × ℚ) :=
  cpGo counts (((nodes.map (fun n => countOf counts n)).sum : Nat) : ℚ) x_pos nodes 0

/-! ## Aggregated links and the full graph description (step 4) -/

/-- `defaultdict(int)` keyed by `(source, target)`. -/
def incrP : List ((String × String) × Nat) → String × String → Nat →
    List ((String × String) × Nat)
  | [], key, w => [(key, w)]
  | (k, c) :: rest, key, w =>
    if k = key then (k, c + w) :: rest else (k, c) :: incrP rest key w

/-- `flow_dict` (lines 563-566): parallel flows aggregated by summation,
keeping only flows with both endpoints in `node_to_index`. -/
def flowDictOf (allNodes : List String) (flows : List FlowTriple) :
    List ((String × String) × Nat) :=
  flows.foldl (fun m f =>
    if allNodes.contains f.1 && allNodes.contains f.2.1 then incrP m (f.1, f.2.1) f.2.2
    else m) []

/-- The aggregated edge list of the builder for pick `k` and input `d`. -/
def aggEdges (k : Nat) (d : AllRaceData) : List ((String × String) × Nat) :=
  flowDictOf
    (allNodesOf (detect_competition_format k d)
      (buildFlows (detect_competition_format k d) d).counts)
    (buildFlows (detect_competition_format k d) d).flows

/-- The builder's final `node_counts` mapping. -/
def nodeCountsOf (k : Nat) (d : AllRaceData) : List (String × Nat) :=
  (buildFlows (detect_competition_format k d) d).counts

/-- Sum of aggregated edge weights out of node `n`. -/
def outSumAgg (agg : List ((String × String) × Nat)) (n : String) : Nat :=
  (agg.map (fun p => if p.1.1 = n then p.2 else 0)).sum

/-- Sum of aggregated edge weights into node `n`. -/
def inSumAgg (agg : List ((String × String) × Nat)) (n : String) : Nat :=
  (agg.map (fun p => if p.1.2 = n then p.2 else 0)).sum

/-- Hex digit (for the palette's fixed `#rrggbb` literals). -/
def hexDigitVal (c : Char) : Nat :=
  if c.isDigit then c.toNat - 48
  else if 'a' ≤ c ∧ c ≤ 'f' then c.toNat - 87
  else if 'A' ≤ c ∧ c ≤ 'F' then c.toNat - 55
  else 0

/-- `int(hex[i:i+2], 16)` plus the rgba formatting (lines 546-548). -/
def rgbaOfHex (h : String) : String :=
  "rgba(" ++ toString (hexDigitVal (h.data.getD 1 '0') * 16 + hexDigitVal (h.data.getD 2 '0')) ++
    ", " ++ toString (hexDigitVal (h.data.getD 3 '0') * 16 + hexDigitVal (h.data.getD 4 '0')) ++
    ", " ++ toString (hexDigitVal (h.data.getD 5 '0') * 16 + hexDigitVal (h.data.getD 6 '0')) ++
    ", 0.6)"

/-- The builder's inner `extract_veld` helper (lines 516-523): the longest
configured category matching the composite node key (stable sort by
descending length, then first match of the three containment forms). -/
def extract_veld_node (cfg : Config) (node_str : String) : Option String :=
  (sortByKey (fun v => -(v.length : Int)) cfg.veld_order).find?
    (fun veld => substrB (" " ++ veld) node_str || endsWithB veld node_str ||
      substrB ("(" ++ veld ++ ")") node_str)

/-- Node colors (lines 512-540). -/
def nodeColor (cfg : Config) (veld_colors : List (String × String)) (node : String) : String :=
  if startsWithB "Veld" node then
    match extract_veld_node cfg node with
    | some v => (findA veld_colors v).getD "#95A5A6"
    | none => "#95A5A6"
  else if cfg.halve_finale_groups.any (fun g => startsWithB (g ++ "_") node) then
    match extract_veld_node cfg node with
    | some v => (findA veld_colors v).getD "#95A5A6"
    | none => "#95A5A6"
  else if startsWithB "Finale" node then "#95A5A6"
  else if startsWithB "Eindklassering" node then
    match extract_veld_node cfg node with
    | some v => (findA veld_colors v).getD "#95A5A6"
    | none => "#95A5A6"
  else "#95A5A6"

/-- `veld_link_colors` (lines 544-549). -/
def veldLinkColors (veld_colors : List (String × String)) : List (String × String) :=
  veld_colors.foldl (fun m p => setA m ("Veld " ++ p.1) (rgbaOfHex p.2)) []

/-- `halve_finale_colors` (lines 552-557). -/
def halveFinaleColors (cfg : Config) (vlc : List (String × String)) :
    List (String × String) :=
  cfg.veld_order.foldl (fun m veld =>
    cfg.halve_finale_groups.foldl (fun m2 g =>
      setA m2 (g ++ "_" ++ veld)
        ((findA vlc ("Veld " ++ veld)).getD "rgba(128,128,128,0.4)")) m) []

/-- `{**a, **b}`. -/
def mergeA (a b : List (String × String)) : List (String × String) :=
  b.foldl (fun m p => setA m p.1 p.2) a

/-- Link colors (lines 573-598). -/
def linkColorOf (cfg : Config) (veld_colors alc : List (String × String))
    (key : String × String) : String :=
  if memKey alc key.1 then (findA alc key.1).getD "rgba(128,128,128,0.4)"
  else if startsWithB "Finale" key.1 && startsWithB "Eindklassering" key.2 then
    match extract_veld_node cfg key.2 with
    | some tv =>
      match findA veld_colors tv with
      | some hex => rgbaOfHex hex
      | none => "rgba(128,128,128,0.4)"
    | none => "rgba(128,128,128,0.4)"
  else "rgba(128,128,128,0.4)"

/-- The graph description handed to the renderer. -/
structure SankeyOut where
  nodes : List String
  labels : List String
  node_colors : List String
  xs : List ℚ
  ys : List ℚ
  linkSources : List (Option Nat)
  linkTargets : List (Option Nat)
  linkValues : List Nat
  linkColors : List String
  title : String
deriving DecidableEq

/-- Position lookup in the merged `all_positions` dict (column keys are
disjoint, so first-match lookup equals the Python dict merge). -/
def findPos (ps : List (String × ℚ × ℚ)) (n : String) : ℚ × ℚ :=
  ((ps.find? (fun p => p.1 == n)).map Prod.snd).getD (0, 0)

/-- `create_four_column_cumulative_sankey` (lines 271-631), steps 2-4:
everything user-visible in the produced figure — node list, labels, colors,
positions, aggregated links with values and colors, and the title. -/
def buildSankey (k : Nat) (d : AllRaceData) : SankeyOut :=
  let cfg := detect_competition_format k d
  let veld_colors := get_adaptive_colors cfg
  let st := buildFlows cfg d
  let all_nodes := allNodesOf cfg st.counts
  let all_positions :=
    calc_positions (col1Nodes cfg st.counts) st.counts 0.02 ++
    calc_positions (col2Nodes cfg st.counts) st.counts 0.35 ++
    calc_positions (col3Nodes cfg st.counts) st.counts 0.65 ++
    calc_positions (col4Nodes st.counts) st.counts 0.98
  let alc := mergeA (veldLinkColors veld_colors) (halveFinaleColors cfg (veldLinkColors veld_colors))
  let agg := flowDictOf all_nodes st.flows
  SankeyOut.mk
    all_nodes
    (all_nodes.map (fun node =>
      if cfg.halve_finale_groups.any (fun g => startsWithB (g ++ "_") node) then "" else node))
    (all_nodes.map (nodeColor cfg veld_colors))
    (all_nodes.map (fun n => (findPos all_positions n).1))
    (all_nodes.map (fun n => (findPos all_positions n).2))
    (agg.map (fun p => all_nodes.findIdx? (fun n => n == p.1.1)))
    (agg.map (fun p => all_nodes.findIdx? (fun n => n == p.1.2)))
    (agg.map (fun p => p.2))
    (agg.map (fun p => linkColorOf cfg veld_colors alc p.1))
    ("Ploegenprogressie " ++ (findA cfg.prefix_patterns "E").getD "V" ++ "Sc " ++
      cfg.boat_class ++ ": Veld → Halve Finales → Finales → Eindklassering")

/-! ### Sorting and fold helper lemmas -/

lemma insStr_length (x : String) (l : List String) : (insStr x l).length = l.length + 1 := by
  induction l with
  | nil => rfl
  | cons y ys ih =>
    unfold insStr
    by_cases h : strLtB y x = true
    · rw [if_pos h]
      simp [ih]
    · rw [if_neg h]
      simp

lemma sortStr_length (l : List String) : (sortStr l).length = l.length := by
  induction l with
  | nil => rfl
  | cons x xs ih =>
    unfold sortStr
    rw [insStr_length, ih]
    rfl

lemma mem_insStr {y x : String} {l : List String} :
    y ∈ insStr x l ↔ y = x ∨ y ∈ l := by
  induction l with
  | nil => simp [insStr]
  | cons z zs ih =>
    unfold insStr
    by_cases h : strLtB z x = true
    · rw [if_pos h]
      simp only [List.mem_cons, ih]
      tauto
    · rw [if_neg h]
      simp only [List.mem_cons]

lemma mem_sortStr {y : String} {l : List String} : y ∈ sortStr l ↔ y ∈ l := by
  induction l with
  | nil => simp [sortStr]
  | cons x xs ih =>
    unfold sortStr
    rw [mem_insStr, ih, List.mem_cons]

lemma mem_insKey {α : Type} {key : α → Int} {y x : α} {l : List α} :
    y ∈ insKey key x l ↔ y = x ∨ y ∈ l := by
  induction l with
  | nil => simp [insKey]
  | cons z zs ih =>
    unfold insKey
    by_cases h : key z < key x
    · rw [if_pos h]
      simp only [List.mem_cons, ih]
      tauto
    · rw [if_neg h]
      simp only [List.mem_cons]

lemma mem_sortByKey {α : Type} {key : α → Int} {y : α} {l : List α} :
    y ∈ sortByKey key l ↔ y ∈ l := by
  induction l with
  | nil => simp [sortByKey]
  | cons x xs ih =>
    unfold sortByKey
    rw [mem_insKey, ih, List.mem_cons]

lemma foldl_preserve {α β : Type} {P : α → Prop} {f : α → β → α}
    (h : ∀ a b, P a → P (f a b)) : ∀ (l : List β) (a : α), P a → P (l.foldl f a)
  | [], _, ha => ha
  | b :: l, a, ha => foldl_preserve h l (f a b) (h a b ha)

lemma foldl_preserve_mem {α β : Type} {P : α → Prop} {f : α → β → α} :
    ∀ (l : List β), (∀ a b, b ∈ l → P a → P (f a b)) → ∀ a, P a → P (l.foldl f a)
  | [], _, _, ha => ha
  | b :: l, h, a, ha =>
    foldl_preserve_mem l (fun a' b' hb' => h a' b' (List.mem_cons_of_mem _ hb'))
      (f a b) (h a b (List.mem_cons_self _ _) ha)

lemma foldl_establish {α β : Type} {P : α → Prop} {f : α → β → α}
    (mono : ∀ a b, P a → P (f a b)) {l : List β} {b : β} (hb : b ∈ l)
    (hest : ∀ a, P (f a b)) : ∀ a, P (l.foldl f a) := by
  obtain ⟨s, t, rfl⟩ := List.append_of_mem hb
  intro a
  rw [List.foldl_append]
  rw [List.foldl_cons]
  exact foldl_preserve mono t _ (hest _)

/-! ### C7: the semifinal-group fallback table -/

/-- C7: whenever no `halve-<letters>-finale` group tags were extracted from
race names, `detect_competition_format` derives the semifinal pools purely
from the number of distinct finale letters: up to 3 letters give one pool
`["ABC"]`, up to 4 give `["ABC", "DE"]`, up to 6 give `["ABC", "DEFG"]`,
and more than 6 also give `["ABC", "DEFG"]`. -/
theorem C7_halve_fallback (k : Nat) (d : AllRaceData) (h : halveGroupsOf d = []) :
    (detect_competition_format k d).halve_finale_groups =
      (if (finaleLettersOf d).length ≤ 3 then ["ABC"]
       else if (finaleLettersOf d).length ≤ 4 then ["ABC", "DE"]
       else if (finaleLettersOf d).length ≤ 6 then ["ABC", "DEFG"]
       else ["ABC", "DEFG"]) := by
  have hproj : (detect_competition_format k d).halve_finale_groups =
      (if sortStr (halveGroupsOf d) = [] then
        (if (sortStr (finaleLettersOf d)).length ≤ 3 then ["ABC"]
         else if (sortStr (finaleLettersOf d)).length ≤ 4 then ["ABC", "DE"]
         else if (sortStr (finaleLettersOf d)).length ≤ 6 then ["ABC", "DEFG"]
         else ["ABC", "DEFG"])
       else sortStr (halveGroupsOf d)) := rfl
  rw [hproj, h, sortStr_length]
  rw [if_pos (show sortStr ([] : List String) = [] from rfl)]

/-- C7 witness: the empty dataset extracts no group tags and gets the
single-pool fallback. -/
theorem C7_witness :
    (detect_competition_format 0 ([] : AllRaceData)).halve_finale_groups = ["ABC"] := by
  rw [C7_halve_fallback 0 ([] : AllRaceData) rfl]
  decide

/-! ### C3: determinism and the boat-class pick -/

/-- A semifinal race containing two categories with different boat-class
substrings (`2x` and `4-`). -/
def eC3a : RaceEntry :=
  ⟨some "1", some "T1", some "VE 2x", none, some (PosVal.int 1), none, some "1"⟩

def eC3b : RaceEntry :=
  ⟨some "2", some "T2", some "VE 4-", none, some (PosVal.int 2), none, some "1"⟩

def dC3 : AllRaceData := [("halve finales", [("halve-abc-finale 1", [eC3a, eC3b])])]

/-- C3 counterexample: on a dataset whose categories contain two distinct
boat-class substrings, two admissible iteration orders of the unordered
`boat_classes` set (`list(boat_classes)[0]`) produce different
user-visible outputs — the node lists (and hence positions) differ because
`veld_order` depends on the picked boat class.  The boat-class choice is
therefore neither "first found" nor independent of set order. -/
theorem C3_counterexample : buildSankey 0 dC3 ≠ buildSankey 1 dC3 := by
  intro h
  have hn := congrArg SankeyOut.nodes h
  exact absurd hn (by decide)

lemma pickSet_indep (k1 k2 : Nat) (l : List String) (h : l.length ≤ 1) :
    pickSet k1 l = pickSet k2 l := by
  match l with
  | [] => rfl
  | [x] => simp [pickSet, Nat.mod_one]
  | x :: y :: rest => simp at h

/-- C3 amended: the pipeline is a deterministic pure function of the input
together with the iteration order of the `boat_classes` set; whenever at
most one boat-class substring is present in the data, the whole graph
description is independent of that order (and repeated runs are
byte-identical).  With several boat classes present the picked class is an
arbitrary set element — not necessarily the first found — and the output
may differ between runs (see the counterexample). -/
theorem C3_determinism_amended (d : AllRaceData) (k1 k2 : Nat)
    (h : (boatClassesOf d).length ≤ 1) :
    buildSankey k1 d = buildSankey k2 d := by
  have hd : detect_competition_format k1 d = detect_competition_format k2 d := by
    unfold detect_competition_format
    rw [pickSet_indep k1 k2 _ h]
  unfold buildSankey
  rw [hd]

/-- C3 witness: a single-boat-class dataset gives order-independent output. -/
theorem C3_witness : buildSankey 0 dC4 = buildSankey 5 dC4 :=
  C3_determinism_amended dC4 0 5 (by decide)

/-! ### C5: cumulative-stacking layout -/

/-- The column's weights, as rationals. -/
def colWeights (nodes : List String) (counts : List (String × Nat)) : List ℚ :=
  nodes.map (fun n => (countOf counts n : ℚ))

/-- Prefix weight of the first `i` nodes. -/
def colPrefixSum (nodes : List String) (counts : List (String × Nat)) (i : Nat) : ℚ :=
  ((nodes.take i).map (fun n => (countOf counts n : ℚ))).sum

/-- Normalized stacking boundary before the `i`-th node. -/
def colBound (nodes : List String) (counts : List (String × Nat)) (i : Nat) : ℚ :=
  colPrefixSum nodes counts i / (colWeights nodes counts).sum

lemma cpGo_get (counts : List (String × Nat)) (total x : ℚ) (nodes : List String) :
    ∀ (cum : ℚ) (i : Nat), i < nodes.length →
      (cpGo counts total x nodes cum).getD i ("", 0, 0) =
        (nodes.getD i "", x,
          max 0.001 (min 0.999
            ((cum + colPrefixSum nodes counts i +
              (countOf counts (nodes.getD i "") : ℚ) / 2) / total))) := by
  induction nodes with
  | nil =>
    intro cum i h
    exact absurd h (by simp)
  | cons n ns ih =>
    intro cum i h
    cases i with
    | zero =>
      simp [cpGo, colPrefixSum]
    | succ j =>
      have hj : j < ns.length := by simpa using h
      show (cpGo counts total x ns (cum + (countOf counts n : ℚ))).getD j ("", 0, 0) = _
      rw [ih (cum + (countOf counts n : ℚ)) j hj]
      unfold colPrefixSum
      simp only [List.take_succ_cons, List.map_cons, List.sum_cons, List.getD_cons_succ]
      rw [add_assoc cum]

lemma cpGo_length (counts : List (String × Nat)) (total x : ℚ) (nodes : List String) :
    ∀ cum, (cpGo counts total x nodes cum).length = nodes.length := by
  induction nodes with
  | nil => intro cum; rfl
  | cons n ns ih =>
    intro cum
    show (cpGo counts total x ns _).length + 1 = ns.length + 1
    rw [ih]

lemma cpGo_mem_y (counts : List (String × Nat)) (total x : ℚ) (nodes : List String) :
    ∀ cum p, p ∈ cpGo counts total x nodes cum →
      (0.001 : ℚ) ≤ p.2.2 ∧ p.2.2 ≤ (0.999 : ℚ) := by
  induction nodes with
  | nil =>
    intro cum p hp
    exact absurd hp (by simp [cpGo])
  | cons n ns ih =>
    intro cum p hp
    rw [show cpGo counts total x (n :: ns) cum =
      (n, x, max 0.001 (min 0.999 ((cum + (countOf counts n : ℚ) / 2) / total))) ::
        cpGo counts total x ns (cum + (countOf counts n : ℚ)) from rfl, List.mem_cons] at hp
    rcases hp with hp | hp
    · subst hp
      refine ⟨le_max_left _ _, ?_⟩
      exact max_le (by norm_num) (min_le_left _ _)
    · exact ih _ p hp

lemma colWeights_sum_cast (nodes : List String) (counts : List (String × Nat)) :
    (((nodes.map (fun n => countOf counts n)).sum : Nat) : ℚ) = (colWeights nodes counts).sum := by
  unfold colWeights
  induction nodes with
  | nil => simp
  | cons n ns ih =>
    simp only [List.map_cons, List.sum_cons, Nat.cast_add, ih]

lemma colWeights_nonneg (nodes : List String) (counts : List (String × Nat)) :
    ∀ w ∈ colWeights nodes counts, 0 ≤ w := by
  intro w hw
  unfold colWeights at hw
  obtain ⟨n, _, rfl⟩ := List.mem_map.mp hw
  exact Nat.cast_nonneg _

lemma colPrefixSum_succ (nodes : List String) (counts : List (String × Nat)) (i : Nat)
    (hi : i < nodes.length) :
    colPrefixSum nodes counts (i + 1) =
      colPrefixSum nodes counts i + (countOf counts (nodes.getD i "") : ℚ) := by
  unfold colPrefixSum
  rw [List.map_take, List.map_take]
  have hi' : i < (nodes.map (fun n => (countOf counts n : ℚ))).length := by simpa using hi
  rw [List.sum_take_succ _ i hi']
  rw [List.getElem_map]
  rw [List.getD_eq_getElem nodes "" hi]

lemma colPrefixSum_ge (nodes : List String) (counts : List (String × Nat)) (i : Nat)
    (hi : nodes.length ≤ i) :
    colPrefixSum nodes counts i = (colWeights nodes counts).sum := by
  unfold colPrefixSum colWeights
  rw [List.take_of_length_le hi]

/-- C5: within a column, `calc_positions` assigns to the `i`-th node exactly
the center `(running_total + weight/2) / column_total` clamped to
`[0.001, 0.999]` with the running total advancing by each node's weight;
every assigned `y` lies in `[0.001, 0.999]`; and the normalized stacking
boundaries start at 0, end at 1, are monotone and bracket each node's
unclamped center, so the stacked regions cover `[0, 1]` without overlap. -/
theorem C5_layout_stacking (nodes : List String) (counts : List (String × Nat)) (x : ℚ)
    (hw : ∀ n ∈ nodes, 1 ≤ countOf counts n) (hne : nodes ≠ []) :
    ((calc_positions nodes counts x).length = nodes.length ∧
     ∀ i, i < nodes.length →
      (calc_positions nodes counts x).getD i ("", 0, 0) =
        (nodes.getD i "", x,
          max 0.001 (min 0.999
            ((colPrefixSum nodes counts i +
              (countOf counts (nodes.getD i "") : ℚ) / 2) / (colWeights nodes counts).sum)))) ∧
    (∀ p ∈ calc_positions nodes counts x, (0.001 : ℚ) ≤ p.2.2 ∧ p.2.2 ≤ (0.999 : ℚ)) ∧
    (0 < (colWeights nodes counts).sum ∧
     colBound nodes counts 0 = 0 ∧
     colBound nodes counts nodes.length = 1 ∧
     (∀ i, colBound nodes counts i ≤ colBound nodes counts (i + 1)) ∧
     ∀ i, i < nodes.length →
       colBound nodes counts i ≤
         (colPrefixSum nodes counts i +
           (countOf counts (nodes.getD i "") : ℚ) / 2) / (colWeights nodes counts).sum ∧
       (colPrefixSum nodes counts i +
           (countOf counts (nodes.getD i "") : ℚ) / 2) / (colWeights nodes counts).sum ≤
         colBound nodes counts (i + 1)) := by
  have htot : 0 < (colWeights nodes counts).sum := by
    match nodes, hne with
    | n :: ns, _ =>
      have h1 : (1 : ℚ) ≤ (countOf counts n : ℚ) := by
        exact_mod_cast hw n (List.mem_cons_self _ _)
      have h2 : 0 ≤ (colWeights ns counts).sum :=
        List.sum_nonneg (colWeights_nonneg ns counts)
      unfold colWeights at h2 ⊢
      simp only [List.map_cons, List.sum_cons]
      linarith
  refine ⟨⟨cpGo_length counts _ x nodes 0, ?_⟩, ?_, htot, ?_, ?_, ?_, ?_⟩
  · intro i hi
    unfold calc_positions
    rw [cpGo_get counts _ x nodes 0 i hi, colWeights_sum_cast, zero_add]
  · intro p hp
    exact cpGo_mem_y counts _ x nodes 0 p hp
  · unfold colBound colPrefixSum
    simp
  · unfold colBound
    rw [colPrefixSum_ge nodes counts nodes.length (le_refl _)]
    exact div_self (ne_of_gt htot)
  · intro i
    unfold colBound
    by_cases hi : i < nodes.length
    · rw [colPrefixSum_succ nodes counts i hi]
      have hwi : (0 : ℚ) ≤ (countOf counts (nodes.getD i "") : ℚ) := Nat.cast_nonneg _
      exact (div_le_div_iff_of_pos_right htot).mpr (by linarith)
    · rw [colPrefixSum_ge nodes counts i (le_of_not_lt hi),
        colPrefixSum_ge nodes counts (i + 1) (by omega)]
  · intro i hi
    have hwi : (0 : ℚ) ≤ (countOf counts (nodes.getD i "") : ℚ) := Nat.cast_nonneg _
    unfold colBound
    constructor
    · exact (div_le_div_iff_of_pos_right htot).mpr (by linarith)
    · rw [colPrefixSum_succ nodes counts i hi]
      exact (div_le_div_iff_of_pos_right htot).mpr (by linarith)

/-- C5 witness: a two-node column with weights 2 and 3. -/
theorem C5_witness :
    0 < (colWeights ["a", "b"] [("a", 2), ("b", 3)]).sum :=
  (C5_layout_stacking ["a", "b"] [("a", 2), ("b", 3)] 0 (by decide) (by decide)).2.2.1

/-! ### C9: unknown categories consume rank slots -/

/-- The rank edge pass 3 emits for one enumerated sorted entry: `none`
when the category is missing or `'Unknown'`. -/
def rankFlowOf (source : String) (off : Nat) (ie : Nat × RaceEntry) : Option FlowTriple :=
  if (ie.2.veld).getD "Unknown" ≠ "" ∧ (ie.2.veld).getD "Unknown" ≠ "Unknown" then
    some (source,
      "Eindklassering " ++ toString (off + ie.1 + 1) ++ " (" ++ (ie.2.veld).getD "Unknown" ++ ")",
      1)
  else none

lemma pass3_fold_flows (source : String) (off : Nat) (l : List (Nat × RaceEntry)) :
    ∀ st : FlowState,
      (l.foldl (pass3Entry source off) st).flows =
        st.flows ++ l.filterMap (rankFlowOf source off) := by
  induction l with
  | nil =>
    intro st
    simp
  | cons ie rest ih =>
    intro st
    by_cases hc : (ie.2.veld).getD "Unknown" ≠ "" ∧ (ie.2.veld).getD "Unknown" ≠ "Unknown"
    · have h1 : pass3Entry source off st ie =
          addFlow source
            ("Eindklassering " ++ toString (off + ie.1 + 1) ++ " (" ++
              (ie.2.veld).getD "Unknown" ++ ")") 1 st := by
        unfold pass3Entry
        rw [if_pos hc]
      have h2 : rankFlowOf source off ie =
          some (source,
            "Eindklassering " ++ toString (off + ie.1 + 1) ++ " (" ++
              (ie.2.veld).getD "Unknown" ++ ")", 1) := by
        unfold rankFlowOf
        rw [if_pos hc]
      rw [List.foldl_cons, ih, h1, List.filterMap_cons, h2]
      show (st.flows ++ [_]) ++ _ = _
      rw [List.append_assoc]
      rfl
    · have h1 : pass3Entry source off st ie = st := by
        unfold pass3Entry
        rw [if_neg hc]
      have h2 : rankFlowOf source off ie = none := by
        unfold rankFlowOf
        rw [if_neg hc]
      rw [List.foldl_cons, ih, h1, List.filterMap_cons, h2]

/-- A finale race with one crew of unknown category at position 1 and one
crew of known category at position 2. -/
def eC9u : RaceEntry := ⟨some "9", some "T", none, none, some (PosVal.int 1), none, some "A"⟩

def eC9k : RaceEntry :=
  ⟨some "8", some "T", some "VE 2x", none, some (PosVal.int 2), none, some "A"⟩

def dC9 : AllRaceData := [("finales", [("a-finale", [eC9u, eC9k])])]

/-- C9: in the final-to-rank pass the crews are sorted by parsed position
with unknown-category crews included, every sorted index consumes a rank
slot (`offset + index + 1`), and no edge is emitted for unknown-category
crews; hence on `dC9` (unknown crew at position 1, known crew at
position 2) the only rank node is `Eindklassering 2 (VE 2x)` — rank number
1 is skipped and no flow ever targets it. -/
theorem C9_unknown_rank_slots :
    (∀ (cfg : Config) (st : FlowState) (race : String × List RaceEntry) (L : Char),
      findFinaleLetter race.1.data = some L →
      (pass3Race cfg st race).flows =
        st.flows ++ ((sortByKey get_position race.2).enum).filterMap
          (rankFlowOf ("Finale " ++ String.mk [L])
            ((findA (finaleOffsets cfg) (String.mk [L])).getD 0))) ∧
    col4Nodes (nodeCountsOf 0 dC9) = ["Eindklassering 2 (VE 2x)"] ∧
    (∀ f ∈ (buildFlows (detect_competition_format 0 dC9) dC9).flows,
      f.2.1 ≠ "Eindklassering 1 (VE 2x)") := by
  refine ⟨?_, by decide, by decide⟩
  intro cfg st race L hL
  unfold pass3Race
  rw [hL]
  exact pass3_fold_flows _ _ _ st

/-- C9 witness: the characterization applied to the concrete finale race. -/
theorem C9_witness :
    (pass3Race (detect_competition_format 0 dC9) (FlowState.mk [] [])
        ("a-finale", [eC9u, eC9k])).flows =
      (FlowState.mk [] []).flows ++
        ((sortByKey get_position [eC9u, eC9k]).enum).filterMap
          (rankFlowOf ("Finale " ++ String.mk ['A'])
            ((findA (finaleOffsets (detect_competition_format 0 dC9)) (String.mk ['A'])).getD 0)) :=
  C9_unknown_rank_slots.1 (detect_competition_format 0 dC9) (FlowState.mk [] [])
    ("a-finale", [eC9u, eC9k]) 'A' (by decide)

/-! ### C10: positive column totals -/

/-- All stored counts are at least 1. -/
def Counts1 (m : List (String × Nat)) : Prop := ∀ p ∈ m, 1 ≤ p.2

lemma incr_counts1 : ∀ (m : List (String × Nat)) (k : String) (w : Nat),
    Counts1 m → 1 ≤ w → Counts1 (incr m k w)
  | [], k, w, _, hw => by
    intro p hp
    simp only [incr, List.mem_cons, List.not_mem_nil, or_false] at hp
    rw [hp]
    exact hw
  | (k', c) :: rest, k, w, h, hw => by
    intro p hp
    unfold incr at hp
    by_cases hk : k' = k
    · rw [if_pos hk] at hp
      rcases List.mem_cons.mp hp with hp | hp
      · have hc := h (k', c) (List.mem_cons_self _ _)
        rw [hp]
        show 1 ≤ c + w
        omega
      · exact h p (List.mem_cons_of_mem _ hp)
    · rw [if_neg hk] at hp
      rcases List.mem_cons.mp hp with hp | hp
      · rw [hp]
        exact h (k', c) (List.mem_cons_self _ _)
      · exact incr_counts1 rest k w (fun q hq => h q (List.mem_cons_of_mem _ hq)) hw p hp

lemma addFlow_counts1 {st : FlowState} {s t : String} {w : Nat}
    (h : Counts1 st.counts) (hw : 1 ≤ w) : Counts1 (addFlow s t w st).counts :=
  incr_counts1 _ _ _ (incr_counts1 _ _ _ h hw) hw

lemma veldCounts_counts1 (entries : List RaceEntry) : Counts1 (veldCountsOf entries) := by
  unfold veldCountsOf
  refine foldl_preserve (P := Counts1) ?_ entries [] ?_
  · intro m e hm
    unfold addVeldCount
    by_cases hc : (e.veld).getD "Unknown" ≠ "" ∧ (e.veld).getD "Unknown" ≠ "Unknown"
    · rw [if_pos hc]
      exact incr_counts1 _ _ _ hm (le_refl 1)
    · rw [if_neg hc]
      exact hm
  · intro p hp
    simp at hp

lemma pass1_counts1 (cfg : Config) (d : AllRaceData) (st : FlowState)
    (h : Counts1 st.counts) : Counts1 (pass1 cfg d st).counts := by
  unfold pass1
  cases findA d "halve finales" with
  | none => exact h
  | some races =>
    refine foldl_preserve (P := fun s => Counts1 s.counts) ?_ races st h
    intro st1 race h1
    unfold pass1Race
    refine foldl_preserve (P := fun s => Counts1 s.counts) ?_ race.2 st1 h1
    intro st2 e h2
    unfold pass1Entry
    by_cases hc : (e.veld).getD "Unknown" ≠ "" ∧ (e.veld).getD "Unknown" ≠ "Unknown"
    · rw [if_pos hc]
      exact addFlow_counts1 h2 (le_refl 1)
    · rw [if_neg hc]
      exact h2

lemma pass2_counts1 (cfg : Config) (d : AllRaceData) (st : FlowState)
    (h : Counts1 st.counts) : Counts1 (pass2 cfg d st).counts := by
  unfold pass2
  cases findA d "finales" with
  | none => exact h
  | some races =>
    refine foldl_preserve (P := fun s => Counts1 s.counts) ?_ races st h
    intro st1 race h1
    unfold pass2Race
    cases findFinaleLetter race.1.data with
    | none => exact h1
    | some L =>
      refine foldl_preserve_mem (P := fun s => Counts1 s.counts) (veldCountsOf race.2) ?_ st1 h1
      intro st2 vc hvc h2
      exact addFlow_counts1 h2 (veldCounts_counts1 race.2 vc hvc)

lemma pass3_counts1 (cfg : Config) (d : AllRaceData) (st : FlowState)
    (h : Counts1 st.counts) : Counts1 (pass3 cfg d st).counts := by
  unfold pass3
  cases findA d "finales" with
  | none => exact h
  | some races =>
    refine foldl_preserve (P := fun s => Counts1 s.counts) ?_ races st h
    intro st1 race h1
    unfold pass3Race
    cases findFinaleLetter race.1.data with
    | none => exact h1
    | some L =>
      refine foldl_preserve (P := fun s => Counts1 s.counts) ?_ _ st1 h1
      intro st2 ie h2
      unfold pass3Entry
      by_cases hc : (ie.2.veld).getD "Unknown" ≠ "" ∧ (ie.2.veld).getD "Unknown" ≠ "Unknown"
      · rw [if_pos hc]
        exact addFlow_counts1 h2 (le_refl 1)
      · rw [if_neg hc]
        exact h2

lemma buildFlows_counts1 (cfg : Config) (d : AllRaceData) :
    Counts1 (buildFlows cfg d).counts := by
  unfold buildFlows
  refine pass3_counts1 cfg d _ (pass2_counts1 cfg d _ (pass1_counts1 cfg d _ ?_))
  intro p hp
  simp at hp

lemma findA_mem {α : Type} : ∀ {m : List (String × α)} {k : String} {v : α},
    findA m k = some v → (k, v) ∈ m := by
  intro m
  induction m with
  | nil =>
    intro k v h
    simp at h
  | cons hd tl ih =>
    intro k v h
    obtain ⟨k', w⟩ := hd
    rw [findA_cons] at h
    by_cases hk : k' = k
    · rw [if_pos hk] at h
      subst hk
      rw [Option.some.inj h]
      exact List.mem_cons_self _ _
    · rw [if_neg hk] at h
      exact List.mem_cons_of_mem _ (ih h)

lemma mem_keys_memKey {α : Type} {m : List (String × α)} {n : String}
    (h : n ∈ keysOf m) : memKey m n = true := by
  unfold memKey
  cases hf : findA m n with
  | some v => rfl
  | none => exact absurd h ((findA_none_iff m n).mp hf)

lemma countOf_ge1 {m : List (String × Nat)} {n : String} (h1 : Counts1 m)
    (h2 : memKey m n = true) : 1 ≤ countOf m n := by
  unfold memKey at h2
  cases hf : findA m n with
  | none =>
    rw [hf] at h2
    simp at h2
  | some v =>
    unfold countOf
    rw [hf]
    exact h1 (n, v) (findA_mem hf)

lemma col_mem_key (cfg : Config) (counts : List (String × Nat)) :
    ∀ col ∈ [col1Nodes cfg counts, col2Nodes cfg counts, col3Nodes cfg counts,
      col4Nodes counts], ∀ n ∈ col, memKey counts n = true := by
  intro col hcol n hn
  simp only [List.mem_cons, List.not_mem_nil, or_false] at hcol
  rcases hcol with rfl | rfl | rfl | rfl
  · exact (List.mem_filter.mp hn).2
  · unfold col2Nodes sort_by_veld at hn
    rcases List.mem_append.mp hn with hn | hn
    · obtain ⟨g, _, hng⟩ := List.mem_flatMap.mp hn
      exact mem_keys_memKey (List.mem_of_mem_filter (mem_sortByKey.mp hng))
    · exact mem_keys_memKey (List.mem_of_mem_filter (mem_sortByKey.mp hn))
  · exact (List.mem_filter.mp hn).2
  · unfold col4Nodes at hn
    exact mem_keys_memKey (List.mem_of_mem_filter (mem_sortByKey.mp hn))

lemma colWeights_sum_pos (col : List String) (counts : List (String × Nat))
    (h : ∀ n ∈ col, 1 ≤ countOf counts n) (hne : col ≠ []) :
    0 < (colWeights col counts).sum := by
  match col, hne with
  | n :: ns, _ =>
    have h1 : (1 : ℚ) ≤ (countOf counts n : ℚ) := by
      exact_mod_cast h n (List.mem_cons_self _ _)
    have h2 : 0 ≤ (colWeights ns counts).sum :=
      List.sum_nonneg (colWeights_nonneg ns counts)
    unfold colWeights at h2 ⊢
    simp only [List.map_cons, List.sum_cons]
    linarith

/-- C10: every node of every column has an accumulated count of at least 1
(columns are restricted to keys of `node_counts`, whose values only ever
grow by positive weights), so a nonempty column's total — the divisor of
`calc_positions` — is strictly positive; and for an empty column
`calc_positions` returns `[]` without performing any division. -/
theorem C10_no_div_by_zero (k : Nat) (d : AllRaceData) :
    (∀ col ∈ [col1Nodes (detect_competition_format k d) (nodeCountsOf k d),
              col2Nodes (detect_competition_format k d) (nodeCountsOf k d),
              col3Nodes (detect_competition_format k d) (nodeCountsOf k d),
              col4Nodes (nodeCountsOf k d)],
      (∀ n ∈ col, 1 ≤ countOf (nodeCountsOf k d) n) ∧
      (col ≠ [] → 0 < (colWeights col (nodeCountsOf k d)).sum)) ∧
    (∀ (counts : List (String × Nat)) (x : ℚ), calc_positions [] counts x = []) := by
  constructor
  · intro col hcol
    have hkey := col_mem_key (detect_competition_format k d) (nodeCountsOf k d) col hcol
    have hge : ∀ n ∈ col, 1 ≤ countOf (nodeCountsOf k d) n := by
      intro n hn
      exact countOf_ge1 (buildFlows_counts1 (detect_competition_format k d) d) (hkey n hn)
    exact ⟨hge, colWeights_sum_pos col (nodeCountsOf k d) hge⟩
  · intro counts x
    rfl

/-- C10 witness: the first column of the concrete dataset `dC3`. -/
theorem C10_witness :
    0 < (colWeights (col1Nodes (detect_competition_format 0 dC3) (nodeCountsOf 0 dC3))
      (nodeCountsOf 0 dC3)).sum :=
  ((C10_no_div_by_zero 0 dC3).1
      (col1Nodes (detect_competition_format 0 dC3) (nodeCountsOf 0 dC3)) (by decide)).2
    (by decide)

/-! ### C1: conservation — counts versus aggregated edge sums -/

/-- Total weight of raw flows leaving `n`. -/
def outSumRaw (fl : List FlowTriple) (n : String) : Nat :=
  (fl.map (fun f => if f.1 = n then f.2.2 else 0)).sum

/-- Total weight of raw flows entering `n`. -/
def inSumRaw (fl : List FlowTriple) (n : String) : Nat :=
  (fl.map (fun f => if f.2.1 = n then f.2.2 else 0)).sum

/-- Total weight of raw flows touching `n` (as source plus as target). -/
def flowTouch (fl : List FlowTriple) (n : String) : Nat :=
  (fl.map (fun f => (if f.1 = n then f.2.2 else 0) + (if f.2.1 = n then f.2.2 else 0))).sum

lemma flowTouch_split (fl : List FlowTriple) (n : String) :
    flowTouch fl n = outSumRaw fl n + inSumRaw fl n := by
  unfold flowTouch outSumRaw inSumRaw
  exact List.sum_map_add

/-- `node_counts` always equals the total flow weight touching each node. -/
def CountsMatch (st : FlowState) : Prop :=
  ∀ n, countOf st.counts n = flowTouch st.flows n

lemma countOf_cons (k' : String) (c : Nat) (m : List (String × Nat)) (n : String) :
    countOf ((k', c) :: m) n = if k' = n then c else countOf m n := by
  unfold countOf
  rw [findA_cons]
  by_cases h : k' = n <;> simp [h]

lemma countOf_incr : ∀ (m : List (String × Nat)) (k : String) (w : Nat) (n : String),
    countOf (incr m k w) n = countOf m n + (if k = n then w else 0)
  | [], k, w, n => by
    show countOf [(k, w)] n = countOf [] n + _
    rw [countOf_cons]
    by_cases h : k = n <;> simp [h, countOf]
  | (k', c) :: tl, k, w, n => by
    unfold incr
    by_cases hk : k' = k
    · subst hk
      rw [if_pos rfl, countOf_cons, countOf_cons]
      by_cases hn : k' = n <;> simp [hn]
    · rw [if_neg hk, countOf_cons, countOf_cons, countOf_incr tl k w n]
      by_cases hn : k' = n
      · have hkn : ¬ k = n := fun hh => hk (hh ▸ hn.symm ▸ rfl)
        simp [hn, hkn]
      · simp [hn, Nat.add_assoc]

lemma flowTouch_append (fl fl' : List FlowTriple) (n : String) :
    flowTouch (fl ++ fl') n = flowTouch fl n + flowTouch fl' n := by
  unfold flowTouch
  rw [List.map_append, List.sum_append]

lemma addFlow_match {st : FlowState} (s t : String) (w : Nat)
    (h : CountsMatch st) : CountsMatch (addFlow s t w st) := by
  intro n
  show countOf (incr (incr st.counts s w) t w) n = flowTouch (st.flows ++ [(s, t, w)]) n
  rw [countOf_incr, countOf_incr, h n, flowTouch_append]
  have hsingle : flowTouch [(s, t, w)] n =
      (if s = n then w else 0) + (if t = n then w else 0) := by
    unfold flowTouch
    simp
  rw [hsingle]
  omega

lemma pass1_match (cfg : Config) (d : AllRaceData) (st : FlowState)
    (h : CountsMatch st) : CountsMatch (pass1 cfg d st) := by
  unfold pass1
  cases findA d "halve finales" with
  | none => exact h
  | some races =>
    refine foldl_preserve (P := CountsMatch) ?_ races st h
    intro st1 race h1
    unfold pass1Race
    refine foldl_preserve (P := CountsMatch) ?_ race.2 st1 h1
    intro st2 e h2
    unfold pass1Entry
    by_cases hc : (e.veld).getD "Unknown" ≠ "" ∧ (e.veld).getD "Unknown" ≠ "Unknown"
    · rw [if_pos hc]
      exact addFlow_match _ _ _ h2
    · rw [if_neg hc]
      exact h2

lemma pass2_match (cfg : Config) (d : AllRaceData) (st : FlowState)
    (h : CountsMatch st) : CountsMatch (pass2 cfg d st) := by
  unfold pass2
  cases findA d "finales" with
  | none => exact h
  | some races =>
    refine foldl_preserve (P := CountsMatch) ?_ races st h
    intro st1 race h1
    unfold pass2Race
    cases findFinaleLetter race.1.data with
    | none => exact h1
    | some L =>
      refine foldl_preserve (P := CountsMatch) ?_ (veldCountsOf race.2) st1 h1
      intro st2 vc h2
      exact addFlow_match _ _ _ h2

lemma pass3_match (cfg : Config) (d : AllRaceData) (st : FlowState)
    (h : CountsMatch st) : CountsMatch (pass3 cfg d st) := by
  unfold pass3
  cases findA d "finales" with
  | none => exact h
  | some races =>
    refine foldl_preserve (P := CountsMatch) ?_ races st h
    intro st1 race h1
    unfold pass3Race
    cases findFinaleLetter race.1.data with
    | none => exact h1
    | some L =>
      refine foldl_preserve (P := CountsMatch) ?_ _ st1 h1
      intro st2 ie h2
      unfold pass3Entry
      by_cases hc : (ie.2.veld).getD "Unknown" ≠ "" ∧ (ie.2.veld).getD "Unknown" ≠ "Unknown"
      · rw [if_pos hc]
        exact addFlow_match _ _ _ h2
      · rw [if_neg hc]
        exact h2

lemma buildFlows_match (cfg : Config) (d : AllRaceData) :
    CountsMatch (buildFlows cfg d) := by
  unfold buildFlows
  refine pass3_match cfg d _ (pass2_match cfg d _ (pass1_match cfg d _ ?_))
  intro n
  rfl

/-! Aggregation preserves per-node sums when no flow is dropped. -/

lemma outSumAgg_incrP : ∀ (m : List ((String × String) × Nat)) (key : String × String)
    (w : Nat) (n : String),
    outSumAgg (incrP m key w) n = outSumAgg m n + (if key.1 = n then w else 0)
  | [], key, w, n => by
    unfold incrP outSumAgg
    by_cases h : key.1 = n <;> simp [h]
  | (k, c) :: rest, key, w, n => by
    unfold incrP
    by_cases hk : k = key
    · subst hk
      rw [if_pos rfl]
      unfold outSumAgg
      simp only [List.map_cons, List.sum_cons]
      by_cases hn : k.1 = n <;> simp [hn] <;> omega
    · rw [if_neg hk]
      unfold outSumAgg
      simp only [List.map_cons, List.sum_cons]
      have := outSumAgg_incrP rest key w n
      unfold outSumAgg at this
      rw [this]
      omega

lemma inSumAgg_incrP : ∀ (m : List ((String × String) × Nat)) (key : String × String)
    (w : Nat) (n : String),
    inSumAgg (incrP m key w) n = inSumAgg m n + (if key.2 = n then w else 0)
  | [], key, w, n => by
    unfold incrP inSumAgg
    by_cases h : key.2 = n <;> simp [h]
  | (k, c) :: rest, key, w, n => by
    unfold incrP
    by_cases hk : k = key
    · subst hk
      rw [if_pos rfl]
      unfold inSumAgg
      simp only [List.map_cons, List.sum_cons]
      by_cases hn : k.2 = n <;> simp [hn] <;> omega
    · rw [if_neg hk]
      unfold inSumAgg
      simp only [List.map_cons, List.sum_cons]
      have := inSumAgg_incrP rest key w n
      unfold inSumAgg at this
      rw [this]
      omega

lemma sums_foldl (memb : List String) (n : String) :
    ∀ (fl : List FlowTriple) (m : List ((String × String) × Nat)),
      (∀ f ∈ fl, memb.contains f.1 = true ∧ memb.contains f.2.1 = true) →
      outSumAgg (fl.foldl (fun m f =>
          if memb.contains f.1 && memb.contains f.2.1 then incrP m (f.1, f.2.1) f.2.2
          else m) m) n = outSumAgg m n + outSumRaw fl n ∧
      inSumAgg (fl.foldl (fun m f =>
          if memb.contains f.1 && memb.contains f.2.1 then incrP m (f.1, f.2.1) f.2.2
          else m) m) n = inSumAgg m n + inSumRaw fl n := by
  intro fl
  induction fl with
  | nil =>
    intro m _
    constructor <;> simp [outSumRaw, inSumRaw]
  | cons f rest ih =>
    intro m hmem
    have hf := hmem f (List.mem_cons_self _ _)
    have hcond : (memb.contains f.1 && memb.contains f.2.1) = true := by
      rw [hf.1, hf.2]
      rfl
    rw [List.foldl_cons, if_pos hcond]
    have ihr := ih (incrP m (f.1, f.2.1) f.2.2)
      (fun g hg => hmem g (List.mem_cons_of_mem _ hg))
    constructor
    · rw [ihr.1, outSumAgg_incrP]
      unfold outSumRaw
      simp only [List.map_cons, List.sum_cons]
      omega
    · rw [ihr.2, inSumAgg_incrP]
      unfold inSumRaw
      simp only [List.map_cons, List.sum_cons]
      omega

/-- A semifinal entry and a finale entry for the same category: the middle
node `ABC_VE 2x` gets one incoming and one outgoing unit of flow, so its
`node_counts` value is 2 while each directional sum is 1. -/
def eC1h : RaceEntry :=
  ⟨some "5", some "T", some "VE 2x", none, some (PosVal.int 1), none, some "1"⟩

def eC1f : RaceEntry :=
  ⟨some "5", some "T", some "VE 2x", none, some (PosVal.int 1), none, some "A"⟩

def dC1 : AllRaceData :=
  [("halve finales", [("halve-abc-finale 1", [eC1h])]),
   ("finales", [("a-finale", [eC1f])])]

/-- C1 counterexample: for the semifinal-pool node `ABC_VE 2x` of `dC1` the
sum of outgoing aggregated edge weights is 1 but `node_counts` is 2
(inbound plus outbound), so "sum of outgoing weights equals the node's
accumulated count" fails on middle-column nodes. -/
theorem C1_counterexample :
    outSumAgg (aggEdges 0 dC1) "ABC_VE 2x" = 1 ∧
    countOf (nodeCountsOf 0 dC1) "ABC_VE 2x" = 2 ∧
    outSumAgg (aggEdges 0 dC1) "ABC_VE 2x" ≠ countOf (nodeCountsOf 0 dC1) "ABC_VE 2x" := by
  exact ⟨by decide, by decide, by decide⟩

/-! Shape facts about the nodes each pass creates. -/

lemma containsB_iff {l : List String} {a : String} : l.contains a = true ↔ a ∈ l := by
  show l.elem a = true ↔ a ∈ l
  exact List.elem_iff

lemma addDedup_mem (l : List String) (x : String) : x ∈ addDedup l x := by
  unfold addDedup
  by_cases h : x ∈ l
  · rw [if_pos h]; exact h
  · rw [if_neg h]; simp

lemma addDedup_mono {l : List String} {y : String} (x : String) (h : y ∈ l) :
    y ∈ addDedup l x := by
  unfold addDedup
  by_cases hx : x ∈ l
  · rw [if_pos hx]; exact h
  · rw [if_neg hx]; exact List.mem_append.mpr (Or.inl h)

/-- A halve-finale group tag: nonempty, all characters uppercase and none
equal to `'V'` (so composite column-2 keys cannot collide with the
`Veld`/`Eindklassering` prefixes). -/
def GroupOk (g : String) : Prop :=
  g.data ≠ [] ∧ ∀ c ∈ g.data, c.isUpper = true ∧ c ≠ 'V'

lemma containsChar_iff {l : List Char} {a : Char} : l.contains a = true ↔ a ∈ l := by
  show l.elem a = true ↔ a ∈ l
  exact List.elem_iff

lemma agUpper_ok {c : Char} (h : isAG c = true) :
    (agUpper c).isUpper = true ∧ agUpper c ≠ 'V' := by
  unfold isAG at h
  rcases Bool.or_eq_true_iff.mp h with h | h
  · have hm : c ∈ ['A', 'B', 'C', 'D', 'E', 'F', 'G'] := containsChar_iff.mp h
    simp only [List.mem_cons, List.not_mem_nil, or_false] at hm
    rcases hm with rfl | rfl | rfl | rfl | rfl | rfl | rfl <;> decide
  · have hm : c ∈ ['a', 'b', 'c', 'd', 'e', 'f', 'g'] := containsChar_iff.mp h
    simp only [List.mem_cons, List.not_mem_nil, or_false] at hm
    rcases hm with rfl | rfl | rfl | rfl | rfl | rfl | rfl <;> decide

lemma tryHalveAt_ok {l : List Char} {g : String} (h : tryHalveAt l = some g) : GroupOk g := by
  unfold tryHalveAt at h
  by_cases h1 : icPrefixB "halve-" l = true
  case neg => rw [if_neg h1] at h; cases h
  rw [if_pos h1] at h
  by_cases h2 : ((l.drop 6).takeWhile isAG) ≠ []
  case neg => rw [if_neg h2] at h; cases h
  rw [if_pos h2] at h
  by_cases h3 : icPrefixB "-finale" ((l.drop 6).dropWhile isAG) = true
  case neg => rw [if_neg h3] at h; cases h
  rw [if_pos h3] at h
  rw [← Option.some.inj h]
  constructor
  · show (((l.drop 6).takeWhile isAG).map agUpper) ≠ []
    simpa using h2
  · intro c hc
    have hc' : c ∈ ((l.drop 6).takeWhile isAG).map agUpper := hc
    obtain ⟨c0, hc0, rfl⟩ := List.mem_map.mp hc'
    exact agUpper_ok (List.mem_takeWhile_imp hc0)

lemma findHalveGroup_ok : ∀ {l : List Char} {g : String},
    findHalveGroup l = some g → GroupOk g := by
  intro l
  induction l with
  | nil => intro g h; cases h
  | cons c rest ih =>
    intro g h
    unfold findHalveGroup at h
    cases ht : tryHalveAt (c :: rest) with
    | some g0 =>
      rw [ht] at h
      rw [← Option.some.inj h]
      exact tryHalveAt_ok ht
    | none =>
      rw [ht] at h
      exact ih h

lemma halveGroupsOf_ok (d : AllRaceData) : ∀ g ∈ halveGroupsOf d, GroupOk g := by
  unfold halveGroupsOf
  refine foldl_preserve (P := fun acc => ∀ g ∈ acc, GroupOk g) ?_ d [] (by simp)
  intro acc rt h
  refine foldl_preserve (P := fun acc => ∀ g ∈ acc, GroupOk g) ?_ rt.2 acc h
  intro acc2 race h2
  unfold addHalveGroupOf
  by_cases hf : substrB "finale" (lowerStr race.1) = true
  case neg => rw [if_neg hf]; exact h2
  rw [if_pos hf]
  cases hh : findHalveGroup race.1.data with
  | none => exact h2
  | some g0 =>
    intro g hg
    have hg2 : g ∈ addDedup acc2 g0 := hg
    unfold addDedup at hg2
    by_cases hmem : g0 ∈ acc2
    · rw [if_pos hmem] at hg2
      exact h2 g hg2
    · rw [if_neg hmem] at hg2
      rcases List.mem_append.mp hg2 with hgg | hgg
      · exact h2 g hgg
      · simp only [List.mem_cons, List.not_mem_nil, or_false] at hgg
        rw [hgg]
        exact findHalveGroup_ok hh

lemma cfg_groups_ok (k : Nat) (d : AllRaceData) :
    ∀ g ∈ (detect_competition_format k d).halve_finale_groups, GroupOk g := by
  have hproj : (detect_competition_format k d).halve_finale_groups =
      (if sortStr (halveGroupsOf d) = [] then
        (if (sortStr (finaleLettersOf d)).length ≤ 3 then ["ABC"]
         else if (sortStr (finaleLettersOf d)).length ≤ 4 then ["ABC", "DE"]
         else if (sortStr (finaleLettersOf d)).length ≤ 6 then ["ABC", "DEFG"]
         else ["ABC", "DEFG"])
       else sortStr (halveGroupsOf d)) := rfl
  rw [hproj]
  have habc : GroupOk "ABC" := ⟨by decide, by decide⟩
  have hde : GroupOk "DE" := ⟨by decide, by decide⟩
  have hdefg : GroupOk "DEFG" := ⟨by decide, by decide⟩
  by_cases h0 : sortStr (halveGroupsOf d) = []
  · rw [if_pos h0]
    split_ifs
    · intro g hg
      simp only [List.mem_cons, List.not_mem_nil, or_false] at hg
      rw [hg]
      exact habc
    · intro g hg
      simp only [List.mem_cons, List.not_mem_nil, or_false] at hg
      rcases hg with rfl | rfl
      · exact habc
      · exact hde
    · intro g hg
      simp only [List.mem_cons, List.not_mem_nil, or_false] at hg
      rcases hg with rfl | rfl
      · exact habc
      · exact hdefg
    · intro g hg
      simp only [List.mem_cons, List.not_mem_nil, or_false] at hg
      rcases hg with rfl | rfl
      · exact habc
      · exact hdefg
  · rw [if_neg h0]
    intro g hg
    exact halveGroupsOf_ok d g (mem_sortStr.mp hg)

lemma create_groups_ok (k : Nat) (d : AllRaceData) (name : String) :
    GroupOk (create_adaptive_halve_finale_groups name (detect_competition_format k d)) := by
  unfold create_adaptive_halve_finale_groups
  cases hf : (detect_competition_format k d).halve_finale_groups.find?
      (fun g => substrB g (upperStr name)) with
  | some g =>
    exact cfg_groups_ok k d g (List.mem_of_find?_eq_some hf)
  | none =>
    by_cases h1 : substrB "ABC" (upperStr name) = true
    · rw [if_pos h1]; exact ⟨by decide, by decide⟩
    · rw [if_neg h1]
      by_cases h2 : substrB "DEFG" (upperStr name) = true
      · rw [if_pos h2]; exact ⟨by decide, by decide⟩
      · rw [if_neg h2]
        by_cases h3 : substrB "DE" (upperStr name) = true
        · rw [if_pos h3]; exact ⟨by decide, by decide⟩
        · rw [if_neg h3]; exact ⟨by decide, by decide⟩

lemma finale_group_ok (L : String) (cfg : Config) :
    GroupOk (get_finale_group_from_letter L cfg) := by
  unfold get_finale_group_from_letter
  split_ifs <;> exact ⟨by decide, by decide⟩

/-! Keys of the counts dictionary only grow. -/

lemma keysOf_incr_self : ∀ (m : List (String × Nat)) (k : String) (w : Nat),
    k ∈ keysOf (incr m k w)
  | [], k, w => by simp [incr]
  | (k', c) :: tl, k, w => by
    unfold incr
    by_cases hk : k' = k
    · subst hk
      rw [if_pos rfl]
      simp
    · rw [if_neg hk, keysOf_cons]
      exact List.mem_cons_of_mem _ (keysOf_incr_self tl k w)

lemma keysOf_incr_mono : ∀ (m : List (String × Nat)) (k : String) (w : Nat) {n : String},
    n ∈ keysOf m → n ∈ keysOf (incr m k w)
  | [], _, _, _, h => by simp at h
  | (k', c) :: tl, k, w, n, h => by
    unfold incr
    by_cases hk : k' = k
    · subst hk
      rw [if_pos rfl]
      simpa using h
    · rw [if_neg hk, keysOf_cons]
      rw [keysOf_cons] at h
      rcases List.mem_cons.mp h with h1 | h2
      · exact h1 ▸ List.mem_cons_self _ _
      · exact List.mem_cons_of_mem _ (keysOf_incr_mono tl k w h2)

/-! String shapes of the four node kinds. -/

lemma take_pfx {α : Type} (n : Nat) (l : List α) : l.take n <+: l :=
  ⟨l.drop n, List.take_append_drop n l⟩

lemma isCol2Node_group {g v : String} (hg : GroupOk g) :
    isCol2Node (g ++ "_" ++ v) = true := by
  obtain ⟨hne, hall⟩ := hg
  obtain ⟨gc, gt, hgd⟩ := List.exists_cons_of_ne_nil hne
  have hdata : (g ++ "_" ++ v).data = g.data ++ '_' :: v.data := by
    rw [String.data_append, String.data_append, List.append_assoc]
    rfl
  have hgc : gc.isUpper = true ∧ gc ≠ 'V' :=
    hall gc (by rw [hgd]; exact List.mem_cons_self _ _)
  have h1 : substrB "_" (g ++ "_" ++ v) = true := by
    apply decide_eq_true
    refine ⟨g.data, v.data, ?_⟩
    rw [hdata, List.append_assoc]
    rfl
  have h2 : startsWithB "Eindklassering" (g ++ "_" ++ v) = false := by
    apply decide_eq_false
    intro hpre
    rw [hdata, hgd] at hpre
    have hE : "Eindklassering".data = 'E' :: 'i' :: "ndklassering".data := rfl
    rw [hE, List.cons_append, List.cons_prefix_cons] at hpre
    obtain ⟨hgcE, hpre2⟩ := hpre
    cases gt with
    | nil =>
      rw [List.nil_append, List.cons_prefix_cons] at hpre2
      exact absurd hpre2.1 (by decide)
    | cons c2 t2 =>
      rw [List.cons_append, List.cons_prefix_cons] at hpre2
      have hc2 : c2.isUpper = true ∧ c2 ≠ 'V' :=
        hall c2 (by rw [hgd]; simp)
      rw [← hpre2.1] at hc2
      exact absurd hc2.1 (by decide)
  have h3 : startsWithB "Veld" (g ++ "_" ++ v) = false := by
    apply decide_eq_false
    intro hpre
    rw [hdata, hgd] at hpre
    have hV : "Veld".data = 'V' :: "eld".data := rfl
    rw [hV, List.cons_append, List.cons_prefix_cons] at hpre
    exact hgc.2 hpre.1.symm
  unfold isCol2Node
  rw [h1, h2, h3]
  rfl

lemma eind_shape (a b c d : String) :
    startsWithB "Eindklassering" ("Eindklassering " ++ a ++ b ++ c ++ d) = true := by
  apply decide_eq_true
  show "Eindklassering".data <+: ("Eindklassering " ++ a ++ b ++ c ++ d).data
  rw [String.data_append, String.data_append, String.data_append, String.data_append]
  have h0 : "Eindklassering".data <+: "Eindklassering ".data := by decide
  exact (((h0.trans (List.prefix_append _ _)).trans (List.prefix_append _ _)).trans
    (List.prefix_append _ _)).trans (List.prefix_append _ _)

/-! Column membership from shape plus key membership. -/

lemma mem_col1 {cfg : Config} {counts : List (String × Nat)} {v : String}
    (hv : v ∈ cfg.veld_order) (hk : ("Veld " ++ v) ∈ keysOf counts) :
    ("Veld " ++ v) ∈ col1Nodes cfg counts := by
  unfold col1Nodes
  exact List.mem_filter.mpr ⟨List.mem_map_of_mem _ hv, mem_keys_memKey hk⟩

lemma mem_col2 {cfg : Config} {counts : List (String × Nat)} {n : String}
    (hc : isCol2Node n = true) (hk : n ∈ keysOf counts) :
    n ∈ col2Nodes cfg counts := by
  unfold col2Nodes
  cases hf : firstGroup cfg n with
  | some g =>
    refine List.mem_append.mpr (Or.inl ?_)
    refine List.mem_flatMap.mpr ⟨g, mem_sortStr.mpr (List.mem_of_find?_eq_some hf), ?_⟩
    unfold sort_by_veld
    refine mem_sortByKey.mpr ?_
    unfold groupNodesOf
    refine List.mem_filter.mpr ⟨hk, ?_⟩
    simp [hc, hf]
  | none =>
    refine List.mem_append.mpr (Or.inr ?_)
    unfold sort_by_veld otherNodesOf
    refine mem_sortByKey.mpr (List.mem_filter.mpr ⟨hk, ?_⟩)
    simp [hc, hf]

lemma mem_col3 {cfg : Config} {counts : List (String × Nat)} {L : String}
    (hL : L ∈ cfg.finale_letters) (hk : ("Finale " ++ L) ∈ keysOf counts) :
    ("Finale " ++ L) ∈ col3Nodes cfg counts := by
  unfold col3Nodes
  exact List.mem_filter.mpr ⟨List.mem_map_of_mem _ (mem_sortStr.mpr hL), mem_keys_memKey hk⟩

lemma mem_col4 {counts : List (String × Nat)} {n : String}
    (hn : startsWithB "Eindklassering" n = true) (hk : n ∈ keysOf counts) :
    n ∈ col4Nodes counts := by
  unfold col4Nodes
  exact mem_sortByKey.mpr (List.mem_filter.mpr ⟨hk, hn⟩)

/-- The shapes a flow endpoint can take, each with the side fact that places
it in one of the four column lists. -/
def ShapeOf (cfg : Config) (n : String) : Prop :=
  (∃ v, n = "Veld " ++ v ∧ v ∈ cfg.veld_order) ∨
  isCol2Node n = true ∨
  (∃ L, n = "Finale " ++ L ∧ L ∈ cfg.finale_letters) ∨
  startsWithB "Eindklassering" n = true

lemma shape_mem_allNodes {cfg : Config} {counts : List (String × Nat)} {n : String}
    (hs : ShapeOf cfg n) (hk : n ∈ keysOf counts) : n ∈ allNodesOf cfg counts := by
  unfold allNodesOf
  simp only [List.mem_append]
  rcases hs with ⟨v, rfl, hv⟩ | hc | ⟨L, rfl, hL⟩ | he
  · exact Or.inl (Or.inl (Or.inl (mem_col1 hv hk)))
  · exact Or.inl (Or.inl (Or.inr (mem_col2 hc hk)))
  · exact Or.inl (Or.inr (mem_col3 hL hk))
  · exact Or.inr (mem_col4 he hk)

/-! Every collected veld category survives into `veld_order` (lines 126-130:
the base-order filter keeps only collected categories, and the `remaining`
list re-adds every collected category the filter skipped). -/

lemma veld_order_complete (k : Nat) (d : AllRaceData) {v : String}
    (hv : v ∈ veldCategoriesOf d) : v ∈ (detect_competition_format k d).veld_order := by
  have hproj : (detect_competition_format k d).veld_order =
      (baseOrderOf (pickSet k (boatClassesOf d)) d).filter
          (fun x => (veldCategoriesOf d).contains x) ++
        sortStr ((veldListOf d).filter (fun x =>
          !((baseOrderOf (pickSet k (boatClassesOf d)) d).filter
            (fun y => (veldCategoriesOf d).contains y)).contains x)) := rfl
  rw [hproj]
  by_cases hmem : v ∈ (baseOrderOf (pickSet k (boatClassesOf d)) d).filter
      (fun x => (veldCategoriesOf d).contains x)
  · exact List.mem_append.mpr (Or.inl hmem)
  · refine List.mem_append.mpr (Or.inr (mem_sortStr.mpr (List.mem_filter.mpr ⟨?_, ?_⟩)))
    · exact mem_sortStr.mpr hv
    · have hcf : ((baseOrderOf (pickSet k (boatClassesOf d)) d).filter
          (fun y => (veldCategoriesOf d).contains y)).contains v = false := by
        cases hb : ((baseOrderOf (pickSet k (boatClassesOf d)) d).filter
            (fun y => (veldCategoriesOf d).contains y)).contains v
        · rfl
        · exact absurd (containsB_iff.mp hb) hmem
      rw [hcf]
      rfl

/-! Collected-set membership for the entries and race names the passes
consume. -/

lemma addVeldOf_mono {a : List String} {x : String} (e : RaceEntry) (h : x ∈ a) :
    x ∈ addVeldOf a e := by
  unfold addVeldOf
  split_ifs with hc
  · exact addDedup_mono _ h
  · exact h

lemma mem_veldCategories {d : AllRaceData} {rt : String × List (String × List RaceEntry)}
    {race : String × List RaceEntry} {e : RaceEntry}
    (hrt : rt ∈ d) (hr : race ∈ rt.2) (he : e ∈ race.2)
    (hv : (e.veld).getD "Unknown" ≠ "" ∧ (e.veld).getD "Unknown" ≠ "Unknown") :
    (e.veld).getD "Unknown" ∈ veldCategoriesOf d := by
  obtain ⟨v, hvv⟩ : ∃ v, e.veld = some v := by
    cases hev : e.veld with
    | none =>
      rw [hev] at hv
      simp at hv
    | some v => exact ⟨v, rfl⟩
  rw [hvv] at hv ⊢
  simp only [Option.getD_some] at hv ⊢
  unfold veldCategoriesOf
  have monoE : ∀ (a : List String) (e' : RaceEntry), v ∈ a → v ∈ addVeldOf a e' :=
    fun a e' h => addVeldOf_mono e' h
  have monoR : ∀ (a : List String) (race' : String × List RaceEntry),
      v ∈ a → v ∈ race'.2.foldl addVeldOf a :=
    fun a race' h => foldl_preserve (P := fun acc => v ∈ acc) monoE race'.2 a h
  have monoT : ∀ (a : List String) (rt' : String × List (String × List RaceEntry)),
      v ∈ a → v ∈ rt'.2.foldl (fun acc2 race0 => race0.2.foldl addVeldOf acc2) a :=
    fun a rt' h => foldl_preserve (P := fun acc => v ∈ acc) monoR rt'.2 a h
  refine foldl_establish (P := fun acc => v ∈ acc) monoT hrt (fun a => ?_) []
  refine foldl_establish (P := fun acc => v ∈ acc) monoR hr (fun a2 => ?_) a
  refine foldl_establish (P := fun acc => v ∈ acc) monoE he (fun a3 => ?_) a2
  unfold addVeldOf
  rw [hvv]
  split_ifs with hcond
  · exact addDedup_mem _ _
  · exact absurd ⟨hv.1, hv.2⟩ hcond

lemma icPrefixB_lower {pat : String} {l : List Char} (h : icPrefixB pat l = true) :
    pat.data <+: l.map Char.toLower := by
  unfold icPrefixB at h
  have h2 : (l.take pat.data.length).map Char.toLower = pat.data := eq_of_beq h
  rw [← h2]
  exact ⟨(l.drop pat.data.length).map Char.toLower,
    by rw [← List.map_append, List.take_append_drop]⟩

lemma findFinale_infix : ∀ {l : List Char} {L : Char},
    findFinaleLetter l = some L → "finale".data <:+: l.map Char.toLower := by
  intro l
  induction l with
  | nil =>
    intro L h
    cases h
  | cons c rest ih =>
    intro L h
    unfold findFinaleLetter at h
    by_cases hc : (isAG c && icPrefixB "-finale" rest) = true
    · have hpre : ('-' :: "finale".data) <+: rest.map Char.toLower :=
        icPrefixB_lower (Bool.and_eq_true_iff.mp hc).2
      obtain ⟨t, ht⟩ := hpre
      refine ⟨[c.toLower, '-'], t, ?_⟩
      have h2 : ([c.toLower, '-'] ++ "finale".data) ++ t
          = c.toLower :: (('-' :: "finale".data) ++ t) := by simp
      rw [h2, ht]
      rfl
    · rw [if_neg hc] at h
      exact List.infix_cons (ih h)

lemma substrB_finale_of_letter {r : String} {L : Char}
    (h : findFinaleLetter r.data = some L) : substrB "finale" (lowerStr r) = true := by
  apply decide_eq_true
  show "finale".data <:+: (lowerStr r).data
  exact findFinale_infix h

lemma addFinaleLetterOf_mono {a : List String} {x : String} (r : String) (h : x ∈ a) :
    x ∈ addFinaleLetterOf a r := by
  unfold addFinaleLetterOf
  split_ifs with hc
  · cases hf : findFinaleLetter r.data with
    | some c => exact addDedup_mono _ h
    | none => exact h
  · exact h

lemma mem_finaleLettersOf {d : AllRaceData} {rt : String × List (String × List RaceEntry)}
    {race : String × List RaceEntry} {L : Char}
    (hrt : rt ∈ d) (hr : race ∈ rt.2)
    (hL : findFinaleLetter race.1.data = some L) :
    String.mk [L] ∈ finaleLettersOf d := by
  unfold finaleLettersOf
  have monoR : ∀ (a : List String) (race' : String × List RaceEntry),
      String.mk [L] ∈ a → String.mk [L] ∈ addFinaleLetterOf a race'.1 :=
    fun a race' h => addFinaleLetterOf_mono race'.1 h
  have monoT : ∀ (a : List String) (rt' : String × List (String × List RaceEntry)),
      String.mk [L] ∈ a →
        String.mk [L] ∈ rt'.2.foldl (fun acc2 race0 => addFinaleLetterOf acc2 race0.1) a :=
    fun a rt' h => foldl_preserve (P := fun acc => String.mk [L] ∈ acc) monoR rt'.2 a h
  refine foldl_establish (P := fun acc => String.mk [L] ∈ acc) monoT hrt (fun a => ?_) []
  refine foldl_establish (P := fun acc => String.mk [L] ∈ acc) monoR hr (fun a2 => ?_) a
  unfold addFinaleLetterOf
  rw [if_pos (substrB_finale_of_letter hL), hL]
  exact addDedup_mem _ _

lemma mem_cfg_finale (k : Nat) {d : AllRaceData}
    {rt : String × List (String × List RaceEntry)} {race : String × List RaceEntry} {L : Char}
    (hrt : rt ∈ d) (hr : race ∈ rt.2)
    (hL : findFinaleLetter race.1.data = some L) :
    String.mk [L] ∈ (detect_competition_format k d).finale_letters := by
  have hproj : (detect_competition_format k d).finale_letters
      = sortStr (finaleLettersOf d) := rfl
  rw [hproj]
  exact mem_sortStr.mpr (mem_finaleLettersOf hrt hr hL)

/-- Invariant carried through the flow-building passes: every recorded flow
endpoint has a column shape and is a key of the counts dictionary. -/
def StOk (cfg : Config) (st : FlowState) : Prop :=
  ∀ f ∈ st.flows, (ShapeOf cfg f.1 ∧ f.1 ∈ keysOf st.counts) ∧
    (ShapeOf cfg f.2.1 ∧ f.2.1 ∈ keysOf st.counts)

lemma addFlow_stOk {cfg : Config} {st : FlowState} {s t : String} {w : Nat}
    (hs : ShapeOf cfg s) (ht : ShapeOf cfg t) (h : StOk cfg st) :
    StOk cfg (addFlow s t w st) := by
  intro f hf
  have hkeys : ∀ n, n ∈ keysOf st.counts → n ∈ keysOf (incr (incr st.counts s w) t w) :=
    fun n hn => keysOf_incr_mono _ _ _ (keysOf_incr_mono _ _ _ hn)
  rcases List.mem_append.mp hf with hf1 | hf2
  · obtain ⟨⟨hs1, hk1⟩, hs2, hk2⟩ := h f hf1
    exact ⟨⟨hs1, hkeys _ hk1⟩, hs2, hkeys _ hk2⟩
  · simp only [List.mem_cons, List.not_mem_nil, or_false] at hf2
    subst hf2
    refine ⟨⟨hs, ?_⟩, ht, ?_⟩
    · exact keysOf_incr_mono _ _ _ (keysOf_incr_self _ _ _)
    · exact keysOf_incr_self _ _ _

lemma pass1_stOk (k : Nat) (d : AllRaceData) (st : FlowState)
    (h : StOk (detect_competition_format k d) st) :
    StOk (detect_competition_format k d) (pass1 (detect_competition_format k d) d st) := by
  unfold pass1
  cases hfd : findA d "halve finales" with
  | none => exact h
  | some races =>
    have hrtmem : ("halve finales", races) ∈ d := findA_mem hfd
    refine foldl_preserve_mem (P := StOk (detect_competition_format k d)) races ?_ st h
    intro st1 race hrace h1
    unfold pass1Race
    refine foldl_preserve_mem (P := StOk (detect_competition_format k d)) race.2 ?_ st1 h1
    intro st2 e he h2
    unfold pass1Entry
    split_ifs with hc
    · refine addFlow_stOk ?_ ?_ h2
      · exact Or.inl ⟨(e.veld).getD "Unknown", rfl,
          veld_order_complete k d (mem_veldCategories hrtmem hrace he hc)⟩
      · exact Or.inr (Or.inl (isCol2Node_group (create_groups_ok k d race.1)))
    · exact h2

lemma pass2_stOk (k : Nat) (d : AllRaceData) (st : FlowState)
    (h : StOk (detect_competition_format k d) st) :
    StOk (detect_competition_format k d) (pass2 (detect_competition_format k d) d st) := by
  unfold pass2
  cases hfd : findA d "finales" with
  | none => exact h
  | some races =>
    have hrtmem : ("finales", races) ∈ d := findA_mem hfd
    refine foldl_preserve_mem (P := StOk (detect_competition_format k d)) races ?_ st h
    intro st1 race hrace h1
    unfold pass2Race
    cases hL : findFinaleLetter race.1.data with
    | none => exact h1
    | some L =>
      refine foldl_preserve (P := StOk (detect_competition_format k d)) ?_ _ st1 h1
      intro st2 vc h2
      refine addFlow_stOk ?_ ?_ h2
      · exact Or.inr (Or.inl (isCol2Node_group (finale_group_ok _ _)))
      · exact Or.inr (Or.inr (Or.inl ⟨String.mk [L], rfl, mem_cfg_finale k hrtmem hrace hL⟩))

lemma pass3_stOk (k : Nat) (d : AllRaceData) (st : FlowState)
    (h : StOk (detect_competition_format k d) st) :
    StOk (detect_competition_format k d) (pass3 (detect_competition_format k d) d st) := by
  unfold pass3
  cases hfd : findA d "finales" with
  | none => exact h
  | some races =>
    have hrtmem : ("finales", races) ∈ d := findA_mem hfd
    refine foldl_preserve_mem (P := StOk (detect_competition_format k d)) races ?_ st h
    intro st1 race hrace h1
    unfold pass3Race
    cases hL : findFinaleLetter race.1.data with
    | none => exact h1
    | some L =>
      refine foldl_preserve (P := StOk (detect_competition_format k d)) ?_ _ st1 h1
      intro st2 ie h2
      unfold pass3Entry
      split_ifs with hc
      · refine addFlow_stOk ?_ ?_ h2
        · exact Or.inr (Or.inr (Or.inl
            ⟨String.mk [L], rfl, mem_cfg_finale k hrtmem hrace hL⟩))
        · exact Or.inr (Or.inr (Or.inr (eind_shape _ _ _ _)))
      · exact h2

lemma buildFlows_stOk (k : Nat) (d : AllRaceData) :
    StOk (detect_competition_format k d) (buildFlows (detect_competition_format k d) d) := by
  unfold buildFlows
  refine pass3_stOk k d _ (pass2_stOk k d _ (pass1_stOk k d _ ?_))
  intro f hf
  exact absurd hf (List.not_mem_nil f)

/-- C1: the conservation law as amended — for every node, the sum of outgoing
plus incoming aggregated edge weights equals the node's accumulated
`node_counts` value. The spec's "sum of outgoing weights equals the count"
holds only at nodes without inbound flow (the counterexample shows a
middle-column node where it fails); the builder drops no flow at the
`node_to_index` filter because every endpoint it ever emits lands in one of
the four column lists. -/
theorem C1_conservation_amended (k : Nat) (d : AllRaceData) (n : String) :
    outSumAgg (aggEdges k d) n + inSumAgg (aggEdges k d) n
      = countOf (nodeCountsOf k d) n := by
  have hok := buildFlows_stOk k d
  have hmatch := buildFlows_match (detect_competition_format k d) d
  have hmem : ∀ f ∈ (buildFlows (detect_competition_format k d) d).flows,
      (allNodesOf (detect_competition_format k d)
          (buildFlows (detect_competition_format k d) d).counts).contains f.1 = true ∧
      (allNodesOf (detect_competition_format k d)
          (buildFlows (detect_competition_format k d) d).counts).contains f.2.1 = true := by
    intro f hf
    obtain ⟨⟨hs1, hk1⟩, hs2, hk2⟩ := hok f hf
    exact ⟨containsB_iff.mpr (shape_mem_allNodes hs1 hk1),
      containsB_iff.mpr (shape_mem_allNodes hs2 hk2)⟩
  have hsum := sums_foldl
    (allNodesOf (detect_competition_format k d)
      (buildFlows (detect_competition_format k d) d).counts)
    n (buildFlows (detect_competition_format k d) d).flows [] hmem
  have hagg : aggEdges k d
      = (buildFlows (detect_competition_format k d) d).flows.foldl (fun m f =>
          if (allNodesOf (detect_competition_format k d)
                (buildFlows (detect_competition_format k d) d).counts).contains f.1 &&
              (allNodesOf (detect_competition_format k d)
                (buildFlows (detect_competition_format k d) d).counts).contains f.2.1
          then incrP m (f.1, f.2.1) f.2.2 else m) [] := rfl
  rw [hagg, hsum.1, hsum.2]
  have h0 : outSumAgg ([] : List ((String × String) × Nat)) n = 0 := rfl
  have h0' : inSumAgg ([] : List ((String × String) × Nat)) n = 0 := rfl
  rw [h0, h0', Nat.zero_add, Nat.zero_add]
  have hcounts : countOf (nodeCountsOf k d) n
      = countOf (buildFlows (detect_competition_format k d) d).counts n := rfl
  rw [hcounts, hmatch n, flowTouch_split]

/-- C8 witness: the presence criterion instantiated at the concrete dataset
`dC4` — crew key `117` has relevant entries, so its record is present. -/
theorem C8_witness :
    (findA (track_crew_progression_with_slag dC4) "117").isSome = true ∧
    tracked dC4 "117" ≠ [] :=
  ⟨((C8_progression_completeness dC4).2.1 "117").mpr (by decide), by decide⟩
